import Mathlib

/-!
Verification of the shared-media list widget
(`Telegram/SourceFiles/info/media/info_media_list_widget.cpp`).

The definitions below are a shallow embedding of the widget's data model and
operations: machine `int`s become `Int` (C++ division truncates toward zero, so
`Int.tdiv`/`Int.tmod` are used wherever the source divides), `base::flat_map`
becomes a key-sorted association list, `base::optional` becomes `Option`, and
the external collaborators that the file only calls into (message resolution,
style metrics, localization) become explicit parameters.
-/

namespace InfoMediaList

/-! ## Message identifiers

`UniversalMsgId` is a plain signed integer (`MsgId`); `FullMsgId` carries a
channel id (`NoChannel == 0` for non-channel peers) and a message id.
`ServerMaxMsgId` is the message-id space bound declared in the repository's
history headers (outside this translation unit). -/

def ServerMaxMsgId : Int := 0x3FFFFFFF

def NoChannel : Int := 0

structure FullMsgId where
  channel : Int
  msg : Int
deriving DecidableEq, Repr

/-- `GetUniversalId(FullMsgId)` from the anonymous namespace of the file:
ids of the current (channel) peer map to themselves, ids of the migrated
history map below zero by subtracting `ServerMaxMsgId`. -/
def GetUniversalId (itemId : FullMsgId) : Int :=
  if itemId.channel ≠ 0 then itemId.msg else itemId.msg - ServerMaxMsgId

/-- The peer data the widget reads through `_peer`: whether the peer is a
channel and its bare id. -/
structure PeerData where
  isChannel : Bool
  bareId : Int
deriving DecidableEq, Repr

/-- `ListWidget::computeFullId`: positive universal ids belong to the current
peer (channel id when the peer is a channel), non-positive ones to the
migrated history (`NoChannel`, shifted back by `ServerMaxMsgId`). -/
def computeFullId (peer : PeerData) (universalId : Int) : FullMsgId :=
  let peerChannel := if peer.isChannel then peer.bareId else NoChannel
  if universalId > 0 then
    ⟨peerChannel, universalId⟩
  else
    ⟨NoChannel, ServerMaxMsgId + universalId⟩

/-- Claim C2. For every `FullMsgId` that validly belongs to the configured
peer (channel id matching the peer's channel, positive message id) or to its
migrated history (`NoChannel`, message id strictly between `0` and
`ServerMaxMsgId`), `computeFullId` is the exact inverse of `GetUniversalId`. -/
theorem computeFullId_GetUniversalId (peer : PeerData) (x : FullMsgId)
    (hvalid :
      (x.channel ≠ 0 ∧ peer.isChannel = true ∧ peer.bareId = x.channel
          ∧ 0 < x.msg)
      ∨ (x.channel = 0 ∧ 0 < x.msg ∧ x.msg < ServerMaxMsgId)) :
    computeFullId peer (GetUniversalId x) = x := by
  rcases hvalid with ⟨hch, hpc, hid, hpos⟩ | ⟨hch, hpos, hlt⟩
  · simp only [computeFullId, GetUniversalId, if_pos hch, if_pos hpos, hpc,
      if_pos rfl, hid, if_true]
  · have hns : ¬ (x.msg - ServerMaxMsgId > 0) := by omega
    simp only [computeFullId, GetUniversalId, hch, ne_eq, not_true_eq_false,
      if_false, if_neg hns]
    have hms : ServerMaxMsgId + (x.msg - ServerMaxMsgId) = x.msg := by ring
    rw [hms, NoChannel, ← hch]

/-- Witness for C2: a channel message id and a migrated-history id both
round-trip at concrete values. -/
theorem computeFullId_GetUniversalId_spot :
    computeFullId ⟨true, 42⟩ (GetUniversalId ⟨42, 7⟩) = ⟨42, 7⟩
    ∧ computeFullId ⟨false, 42⟩ (GetUniversalId ⟨0, 9⟩) = ⟨0, 9⟩ := by
  constructor
  · exact computeFullId_GetUniversalId ⟨true, 42⟩ ⟨42, 7⟩
      (Or.inl (by refine ⟨by decide, rfl, rfl, by decide⟩))
  · exact computeFullId_GetUniversalId ⟨false, 42⟩ ⟨0, 9⟩
      (Or.inr ⟨rfl, by decide, by decide⟩)

/-! ## Dates, media types and item layouts -/

/-- The `QDate` triple read through `item->date.date()`. -/
structure Date where
  year : Int
  month : Int
  day : Int
deriving DecidableEq, Repr

/-- `Storage::SharedMediaType` as used by the widget (`Type`). -/
inductive MediaType
  | Photo
  | Video
  | RoundFile
  | File
  | Link
  | VoiceFile
  | MusicFile
deriving DecidableEq, Repr

/-- Shallow model of `Overview::Layout::ItemBase` (`BaseLayout`): the universal
id of its message, the message date, the (pure) measurement function behind
`resizeGetHeight`, and the two mutable scalars `height()` and `position()`. -/
structure BaseLayout where
  universalId : Int
  date : Date
  measureHeight : Int → Int
  height : Int := 0
  position : Int := 0

instance : Inhabited BaseLayout :=
  ⟨{ universalId := 0, date := ⟨0, 0, 0⟩, measureHeight := fun _ => 0 }⟩

/-- The header `Text` of a section, modelled symbolically by which
localization function `setHeader` applied to the first item's date
(`langMonthFull`, `langDayOfMonthFull`, or the empty `QString`). -/
inductive HeaderText
  | empty
  | monthFull (year month : Int)
  | dayOfMonthFull (year month day : Int)
deriving DecidableEq, Repr

/-! ## Section -/

/-- `ListWidget::Section`. `items` is the `base::flat_map<UniversalMsgId,
not_null<BaseLayout*>, std::greater<>>` in its iteration order: strictly
descending `universalId`. The geometry scalars mirror the private fields. -/
structure Section where
  type : MediaType
  header : HeaderText := HeaderText.empty
  items : List BaseLayout := []
  itemsLeft : Int := 0
  itemsTop : Int := 0
  itemWidth : Int := 0
  itemsInRow : Int := 1
  rowsCount : Int := 0
  top : Int := 0
  height : Int := 0

instance : Inhabited Section := ⟨{ type := MediaType.Photo }⟩

/-- The date-bucket comparison at the heart of `Section::belongsHere`:
same year and month for the month-bucketed kinds, same day as well for links,
unconditionally true for the flat audio kind. -/
def sameBucket (ty : MediaType) (date myDate : Date) : Bool :=
  match ty with
  | MediaType.Photo | MediaType.Video | MediaType.RoundFile
  | MediaType.VoiceFile | MediaType.File =>
      date.year == myDate.year && date.month == myDate.month
  | MediaType.Link =>
      date.year == myDate.year && date.month == myDate.month
        && date.day == myDate.day
  | MediaType.MusicFile => true

/-- `Section::belongsHere`: compares the new item's date with the date of
`_items.back()` (the smallest-id item). The source `Expects(!_items.empty())`;
the `none` case is unreachable through `addItem`. -/
def Section.belongsHere (s : Section) (item : BaseLayout) : Bool :=
  match s.items.getLast? with
  | some last => sameBucket s.type item.date last.date
  | none => true

/-- `Section::setHeader`: the header text is derived from the item's date
according to the section type. -/
def Section.setHeader (s : Section) (item : BaseLayout) : Section :=
  let d := item.date
  let text :=
    match s.type with
    | MediaType.Photo | MediaType.Video | MediaType.RoundFile
    | MediaType.VoiceFile | MediaType.File => HeaderText.monthFull d.year d.month
    | MediaType.Link => HeaderText.dayOfMonthFull d.year d.month d.day
    | MediaType.MusicFile => HeaderText.empty
  { s with header := text }

/-- Keyed insertion into the descending `flat_map`: `emplace` inserts at the
sorted position and leaves the map unchanged when the key already exists. -/
def insertDescNoDup (item : BaseLayout) : List BaseLayout → List BaseLayout
  | [] => [item]
  | x :: xs =>
    if x.universalId < item.universalId then item :: x :: xs
    else if item.universalId == x.universalId then x :: xs
    else x :: insertDescNoDup item xs

/-- `Section::appendItem`: `_items.emplace(GetUniversalId(item), item)`. -/
def Section.appendItem (s : Section) (item : BaseLayout) : Section :=
  { s with items := insertDescNoDup item s.items }

/-- `Section::addItem`: accept when empty or `belongsHere`; the first accepted
item also sets the header. Returns the updated section and the `bool` result. -/
def Section.addItem (s : Section) (item : BaseLayout) : Section × Bool :=
  if s.items.isEmpty || s.belongsHere item then
    let s' := if s.items.isEmpty then s.setHeader item else s
    (s'.appendItem item, true)
  else
    (s, false)

/-- A section as produced by a sequence of `addItem` calls on a fresh
`Section(type)`. -/
def Section.runAddItems (ty : MediaType) (ls : List BaseLayout) : Section :=
  ls.foldl (fun s it => (s.addItem it).1) { type := ty }

/-! ### Helper lemmas about buckets and section construction -/

theorem sameBucket_refl (ty : MediaType) (d : Date) : sameBucket ty d d = true := by
  cases ty <;> simp [sameBucket]

theorem sameBucket_symm {ty : MediaType} {d e : Date}
    (h : sameBucket ty d e = true) : sameBucket ty e d = true := by
  cases ty <;> simp_all [sameBucket]

theorem sameBucket_trans {ty : MediaType} {d e f : Date}
    (h₁ : sameBucket ty d e = true) (h₂ : sameBucket ty e f = true) :
    sameBucket ty d f = true := by
  cases ty <;> simp_all [sameBucket]

theorem mem_insertDescNoDup {item x : BaseLayout} :
    ∀ {l : List BaseLayout}, x ∈ insertDescNoDup item l → x = item ∨ x ∈ l := by
  intro l
  induction l with
  | nil =>
    intro h
    simp only [insertDescNoDup, List.mem_singleton] at h
    exact Or.inl h
  | cons y ys ih =>
    intro h
    simp only [insertDescNoDup] at h
    split at h
    · rcases List.mem_cons.mp h with h | h
      · exact Or.inl h
      · exact Or.inr h
    · split at h
      · exact Or.inr h
      · rcases List.mem_cons.mp h with h | h
        · exact Or.inr (by simp [h])
        · rcases ih h with h | h
          · exact Or.inl h
          · exact Or.inr (List.mem_cons_of_mem y h)

theorem filter_ne_cons_self {p : Int × SelectionData → Bool}
    {e : Int × SelectionData} {es : List (Int × SelectionData)}
    (h : p e = true) : (e :: es).filter p = e :: es.filter p := by
  simp [List.filter_cons, h]

theorem id_mem_insertDescNoDup (item : BaseLayout) :
    ∀ (l : List BaseLayout),
      item.universalId ∈ (insertDescNoDup item l).map (·.universalId) := by
  intro l
  induction l with
  | nil => simp [insertDescNoDup]
  | cons y ys ih =>
    simp only [insertDescNoDup]
    split
    · simp
    · split
      · next heq =>
        simp only [List.map_cons, List.mem_cons]
        exact Or.inl (beq_iff_eq.mp heq)
      · simpa using Or.inr (by simpa using ih)

/-- All items of a section share one date bucket. -/
def Section.Homogeneous (s : Section) : Prop :=
  ∀ i ∈ s.items, ∀ j ∈ s.items, sameBucket s.type i.date j.date = true

theorem addItem_type (s : Section) (item : BaseLayout) :
    (s.addItem item).1.type = s.type := by
  simp only [Section.addItem]
  split
  · split <;> rfl
  · rfl

theorem addItem_homogeneous {s : Section} (item : BaseLayout)
    (hs : s.Homogeneous) : (s.addItem item).1.Homogeneous := by
  simp only [Section.addItem]
  split
  · next hcond =>
    have htype : (if s.items.isEmpty then s.setHeader item else s).type = s.type := by
      split <;> rfl
    have hitems : (if s.items.isEmpty then s.setHeader item else s).items = s.items := by
      split <;> rfl
    intro i hi j hj
    simp only [Section.appendItem] at hi hj
    rw [hitems] at hi hj
    simp only [Section.appendItem, htype]
    cases hne : s.items with
    | nil =>
      rw [hne] at hi hj
      simp only [insertDescNoDup, List.mem_singleton] at hi hj
      rw [hi, hj]
      exact sameBucket_refl _ _
    | cons a as =>
      have hbel : s.belongsHere item = true := by
        rcases Bool.or_eq_true _ _ |>.mp hcond with hemp | hbel
        · rw [hne] at hemp
          simp at hemp
        · exact hbel
      obtain ⟨last, hlast⟩ : ∃ last, s.items.getLast? = some last := by
        rw [hne]
        exact ⟨(a :: as).getLast (by simp), List.getLast?_eq_getLast _ _⟩
      have hlmem : last ∈ s.items := List.mem_of_mem_getLast? (by simp [hlast])
      have hitlast : sameBucket s.type item.date last.date = true := by
        unfold Section.belongsHere at hbel
        rw [hlast] at hbel
        exact hbel
      have key : ∀ k ∈ s.items, sameBucket s.type item.date k.date = true := by
        intro k hk
        exact sameBucket_trans hitlast (hs last hlmem k hk)
      rcases mem_insertDescNoDup hi with rfl | hi' <;>
        rcases mem_insertDescNoDup hj with rfl | hj'
      · exact sameBucket_refl _ _
      · exact key _ hj'
      · exact sameBucket_symm (key _ hi')
      · exact hs i hi' j hj'
  · exact hs

theorem runAddItems_type (ty : MediaType) (ls : List BaseLayout) :
    (Section.runAddItems ty ls).type = ty := by
  suffices h : ∀ (s : Section),
      (ls.foldl (fun s it => (s.addItem it).1) s).type = s.type by
    exact h { type := ty }
  induction ls with
  | nil => intro s; rfl
  | cons a as ih =>
    intro s
    rw [List.foldl_cons, ih, addItem_type]

theorem runAddItems_homogeneous (ty : MediaType) (ls : List BaseLayout) :
    (Section.runAddItems ty ls).Homogeneous := by
  suffices h : ∀ (s : Section), s.Homogeneous →
      (ls.foldl (fun s it => (s.addItem it).1) s).Homogeneous by
    refine h { type := ty } ?_
    intro i hi
    simp at hi
  induction ls with
  | nil => intro s hs; exact hs
  | cons a as ih =>
    intro s hs
    rw [List.foldl_cons]
    exact ih _ (addItem_homogeneous a hs)

/-- Claim C1 (amended). On any section reachable by a sequence of `addItem`
calls on a fresh `Section(type)`: `addItem` succeeds exactly when the section
is empty or `belongsHere` holds; a rejected item leaves the section (items,
header, height, geometry) completely unchanged; an accepted item's id is
present afterwards; and, against such a section, `belongsHere` means sharing
the date bucket — year and month for Photo/Video/RoundFile/File *and
VoiceFile*, plus the day for Link, unconditionally true only for MusicFile —
with every existing item. (The original claim put VoiceFile in the
unconditional bucket; see the counterexample.) -/
theorem addItem_spec (ty : MediaType) (ls : List BaseLayout) (item : BaseLayout) :
    ((Section.runAddItems ty ls).addItem item).2
        = ((Section.runAddItems ty ls).items.isEmpty
            || (Section.runAddItems ty ls).belongsHere item)
    ∧ (((Section.runAddItems ty ls).addItem item).2 = false →
        ((Section.runAddItems ty ls).addItem item).1 = Section.runAddItems ty ls)
    ∧ (((Section.runAddItems ty ls).addItem item).2 = true →
        item.universalId ∈
          (((Section.runAddItems ty ls).addItem item).1.items.map (·.universalId)))
    ∧ ((Section.runAddItems ty ls).items ≠ [] →
        ((Section.runAddItems ty ls).belongsHere item = true ↔
          ∀ j ∈ (Section.runAddItems ty ls).items,
            sameBucket ty item.date j.date = true)) := by
  set s := Section.runAddItems ty ls with hsdef
  have hty : s.type = ty := runAddItems_type ty ls
  have hhom : s.Homogeneous := runAddItems_homogeneous ty ls
  refine ⟨?_, ?_, ?_, ?_⟩
  · by_cases h : (s.items.isEmpty || s.belongsHere item) = true
    · simp [Section.addItem, h]
    · simp only [Bool.not_eq_true] at h
      simp [Section.addItem, h]
  · intro hfalse
    by_cases h : (s.items.isEmpty || s.belongsHere item) = true
    · simp [Section.addItem, h] at hfalse
    · simp only [Bool.not_eq_true] at h
      simp [Section.addItem, h]
  · intro htrue
    by_cases h : (s.items.isEmpty || s.belongsHere item) = true
    · have hitems : (if s.items.isEmpty then s.setHeader item else s).items
          = s.items := by
        split <;> rfl
      simp only [Section.addItem, if_pos h, Section.appendItem, hitems]
      exact id_mem_insertDescNoDup item s.items
    · simp only [Bool.not_eq_true] at h
      simp [Section.addItem, h] at htrue
  · intro hne
    obtain ⟨last, hlast⟩ :=
      Option.isSome_iff_exists.mp (List.getLast?_isSome.mpr hne)
    have hlmem : last ∈ s.items := List.mem_of_mem_getLast? (by simp [hlast])
    have hbel : s.belongsHere item = sameBucket s.type item.date last.date := by
      unfold Section.belongsHere
      rw [hlast]
    constructor
    · intro hbtrue j hj
      rw [hbel] at hbtrue
      rw [← hty]
      exact sameBucket_trans hbtrue (hhom last hlmem j hj)
    · intro hall
      rw [hbel, hty]
      exact hall last hlmem

/-- Demo layout for the spec's scenario: an item of the given id dated
2017-05-03, measuring square at any width. -/
def demoLayout (id : Int) : BaseLayout :=
  { universalId := id, date := ⟨2017, 5, 3⟩, measureHeight := fun w => w }

/-- Witness for C1, at the spec's scenario: after feeding ids 103 and 104 of
one month, `addItem` of id 105 of the same month reports exactly the
empty-or-`belongsHere` condition. -/
theorem addItem_spec_spot :
    ((Section.runAddItems MediaType.Photo
        [demoLayout 103, demoLayout 104]).addItem (demoLayout 105)).2
      = ((Section.runAddItems MediaType.Photo
            [demoLayout 103, demoLayout 104]).items.isEmpty
          || (Section.runAddItems MediaType.Photo
                [demoLayout 103, demoLayout 104]).belongsHere (demoLayout 105)) :=
  (addItem_spec MediaType.Photo [demoLayout 103, demoLayout 104]
    (demoLayout 105)).1

/-- Counterexample to C1 as stated: `belongsHere` is not unconditionally true
for VoiceFile — the source's `switch` buckets `Type::VoiceFile` together with
Photo/Video/RoundFile/File by year and month, and only MusicFile returns
`true` unconditionally. A voice section holding a May 2017 item therefore
rejects a June 2017 item. -/
theorem voiceFile_belongsHere_not_unconditional :
    ((Section.runAddItems MediaType.VoiceFile
        [{ universalId := 20, date := ⟨2017, 5, 3⟩,
           measureHeight := fun w => w }]).belongsHere
      { universalId := 21, date := ⟨2017, 6, 1⟩,
        measureHeight := fun w => w }) = false
    ∧ ((Section.runAddItems MediaType.VoiceFile
        [{ universalId := 20, date := ⟨2017, 5, 3⟩,
           measureHeight := fun w => w }]).addItem
      { universalId := 21, date := ⟨2017, 6, 1⟩,
        measureHeight := fun w => w }).2 = false :=
  ⟨by decide, by decide⟩

/-! ## Selection maps

`SelectedMap` is `base::flat_map<UniversalMsgId, SelectionData>`: an ordered,
unique-key association list (ascending key order). `_selected` holds the
committed selection, `_dragSelected` the transient drag overlay. -/

/-- A text-symbol range (`TextSelection`), `from`/`to` quint16 offsets. -/
structure TextSelection where
  fromSym : Nat
  toSym : Nat
deriving DecidableEq, Repr

/-- The `FullSelection` sentinel value. -/
def FullSelection : TextSelection := ⟨0xFFFF, 0xFFFF⟩

/-- `SelectionData`: the stored text selection plus the cached permission
flags filled in from the resolved message. -/
structure SelectionData where
  text : TextSelection
  canDelete : Bool := false
  canForward : Bool := false
deriving DecidableEq, Repr

abbrev SelectedMap := List (Int × SelectionData)

/-- `flat_map::find` by key (first match in key order). -/
def SelectedMap.find : SelectedMap → Int → Option SelectionData
  | [], _ => Option.none
  | e :: es, id => if e.1 == id then some e.2 else SelectedMap.find es id

/-- `flat_map::erase` of the entry with the given key. The map never holds a
duplicate key, so dropping every occurrence is the same operation. -/
def SelectedMap.remove (m : SelectedMap) (id : Int) : SelectedMap :=
  m.filter (fun e => !(e.1 == id))

/-- Keyed, order-preserving insertion (no overwrite on an existing key). -/
def insertSorted (id : Int) (d : SelectionData) : SelectedMap → SelectedMap
  | [] => [(id, d)]
  | e :: es =>
    if id < e.1 then (id, d) :: e :: es
    else if id == e.1 then e :: es
    else e :: insertSorted id d es

/-- `flat_map::try_emplace`: insert when the key is absent; report whether an
insertion happened. -/
def SelectedMap.tryEmplace (m : SelectedMap) (id : Int) (d : SelectionData) :
    SelectedMap × Bool :=
  match m.find id with
  | some _ => (m, false)
  | Option.none => (insertSorted id d m, true)

/-- Mutation through an iterator at the given key. -/
def SelectedMap.setEntry (m : SelectedMap) (id : Int)
    (f : SelectionData → SelectionData) : SelectedMap :=
  m.map fun e => if e.1 == id then (e.1, f e.2) else e

/-- `MaxSelectedItems` (declared in the widget's header next to this file). -/
def MaxSelectedItems : Nat := 100

/-- The host-side lookup `App::histItemById(computeFullId(id))`, modelled as an
environment that yields the message's `(canDelete, canForward)` flags when the
id resolves to a live message. -/
def Resolver := Int → Option (Bool × Bool)

/-- The `changeExisting` lambda of `ListWidget::changeItemSelection`: update
the stored text selection when it differs, report whether anything changed. -/
def SelectedMap.changeExisting (m : SelectedMap) (id : Int)
    (sel : TextSelection) : SelectedMap × Bool :=
  match m.find id with
  | Option.none => (m, false)
  | some d =>
    if d.text ≠ sel then (m.setEntry id (fun e => { e with text := sel }), true)
    else (m, false)

/-- `ListWidget::changeItemSelection`: below the cap, `try_emplace` the id;
when inserted, resolve the message — erasing the fresh entry again on failure —
and cache its permission flags; otherwise fall back to `changeExisting`. At
the cap only `changeExisting` runs. -/
def changeItemSelection (resolve : Resolver) (m : SelectedMap) (id : Int)
    (sel : TextSelection) : SelectedMap × Bool :=
  if m.length < MaxSelectedItems then
    match m.tryEmplace id { text := sel } with
    | (m', true) =>
      match resolve id with
      | Option.none => (m'.remove id, false)
      | some flags =>
        (m'.setEntry id
          (fun e => { e with canDelete := flags.1, canForward := flags.2 }), true)
    | (m', false) => m'.changeExisting id sel
  else
    m.changeExisting id sel

/-- The committed-selection operations a user gesture can perform:
`applyItemSelection`-style changes, `toggleItemSelection`, and
`removeItemSelection`. -/
inductive SelOp
  | change (id : Int) (sel : TextSelection)
  | toggle (id : Int)
  | remove (id : Int)

/-- One operation on the committed map (UI repaint/snapshot effects elided). -/
def applySelOp (resolve : Resolver) (m : SelectedMap) : SelOp → SelectedMap
  | SelOp.change id sel => (changeItemSelection resolve m id sel).1
  | SelOp.toggle id =>
    match m.find id with
    | Option.none => (changeItemSelection resolve m id FullSelection).1
    | some _ => m.remove id
  | SelOp.remove id => m.remove id

def runSelOps (resolve : Resolver) (m : SelectedMap) (ops : List SelOp) :
    SelectedMap :=
  ops.foldl (applySelOp resolve) m

/-! ### Selection map lemmas -/

theorem length_insertSorted_le (id : Int) (d : SelectionData) :
    ∀ (m : SelectedMap), (insertSorted id d m).length ≤ m.length + 1 := by
  intro m
  induction m with
  | nil => simp [insertSorted]
  | cons e es ih =>
    simp only [insertSorted]
    split
    · simp
    · split
      · simp
      · simpa using Nat.succ_le_succ ih

theorem length_setEntry (m : SelectedMap) (id : Int)
    (f : SelectionData → SelectionData) : (m.setEntry id f).length = m.length := by
  simp [SelectedMap.setEntry]

theorem length_remove_le (m : SelectedMap) (id : Int) :
    (m.remove id).length ≤ m.length :=
  List.length_filter_le _ m

theorem find_eq_none_iff {m : SelectedMap} {id : Int} :
    m.find id = Option.none ↔ ∀ e ∈ m, e.1 ≠ id := by
  induction m with
  | nil => simp [SelectedMap.find]
  | cons e es ih =>
    simp only [SelectedMap.find]
    by_cases h : e.1 = id
    · simp [h]
    · simp only [beq_iff_eq, h, if_false, ih, List.mem_cons]
      constructor
      · intro hall x hx
        rcases hx with rfl | hx
        · exact h
        · exact hall x hx
      · intro hall x hx
        exact hall x (Or.inr hx)

theorem remove_eq_self_of_find_none {m : SelectedMap} {id : Int}
    (h : m.find id = Option.none) : m.remove id = m := by
  rw [SelectedMap.remove, List.filter_eq_self]
  intro e he
  simpa using find_eq_none_iff.mp h e he

theorem find_remove_self (m : SelectedMap) (id : Int) :
    (m.remove id).find id = Option.none := by
  rw [find_eq_none_iff]
  intro e he
  have := List.of_mem_filter he
  simpa using this

theorem remove_insertSorted {id : Int} (d : SelectionData) :
    ∀ {m : SelectedMap}, m.find id = Option.none →
      (insertSorted id d m).remove id = m := by
  intro m
  induction m with
  | nil =>
    intro _
    simp [insertSorted, SelectedMap.remove]
  | cons e es ih =>
    intro h
    have he : e.1 ≠ id := find_eq_none_iff.mp h e (List.mem_cons_self e es)
    have hes : SelectedMap.find es id = Option.none := by
      rw [find_eq_none_iff]
      intro x hx
      exact find_eq_none_iff.mp h x (List.mem_cons_of_mem e hx)
    have hpe : (!(e.1 == id)) = true := by simpa using he
    have hes' : (es.filter (fun x => !(x.1 == id))) = es := by
      have h3 := remove_eq_self_of_find_none hes
      simpa [SelectedMap.remove] using h3
    simp only [insertSorted]
    split
    · simp only [SelectedMap.remove, List.filter_cons]
      simp [hpe, hes', he]
    · split
      · next heq =>
        exact absurd (beq_iff_eq.mp heq).symm he
      · simp only [SelectedMap.remove] at ih ⊢
        rw [filter_ne_cons_self hpe, ih hes]

theorem changeExisting_length (m : SelectedMap) (id : Int) (sel : TextSelection) :
    (m.changeExisting id sel).1.length = m.length := by
  unfold SelectedMap.changeExisting
  cases h : m.find id with
  | none => rfl
  | some d =>
    dsimp only
    split
    · simp [length_setEntry]
    · rfl

theorem changeItemSelection_length_le {resolve : Resolver} {m : SelectedMap}
    {id : Int} {sel : TextSelection} (h : m.length ≤ MaxSelectedItems) :
    (changeItemSelection resolve m id sel).1.length ≤ MaxSelectedItems := by
  unfold changeItemSelection
  split
  · next hlt =>
    unfold SelectedMap.tryEmplace
    cases hf : m.find id with
    | some d =>
      simpa [changeExisting_length] using h
    | none =>
      have hins : (insertSorted id { text := sel } m).length ≤ MaxSelectedItems := by
        calc (insertSorted id { text := sel } m).length ≤ m.length + 1 :=
              length_insertSorted_le _ _ m
          _ ≤ MaxSelectedItems := hlt
      cases hr : resolve id with
      | none =>
        simpa using le_trans (length_remove_le _ _) hins
      | some flags =>
        simpa [length_setEntry] using hins
  · simpa [changeExisting_length] using h

theorem applySelOp_length_le {resolve : Resolver} {m : SelectedMap}
    (op : SelOp) (h : m.length ≤ MaxSelectedItems) :
    (applySelOp resolve m op).length ≤ MaxSelectedItems := by
  cases op with
  | change id sel => exact changeItemSelection_length_le h
  | toggle id =>
    simp only [applySelOp]
    cases hf : m.find id with
    | none =>
      dsimp only
      exact changeItemSelection_length_le h
    | some d =>
      dsimp only
      exact le_trans (length_remove_le _ _) h
  | remove id => exact le_trans (length_remove_le _ _) h

/-- Claim C3. Starting from any committed selection at or below the
`MaxSelectedItems` cap: (1) any sequence of change/toggle/remove operations
keeps the map at or below the cap; and when the map holds exactly
`MaxSelectedItems` entries, (2) `changeItemSelection` with an absent id
returns `false` and leaves the map unchanged, (3) changing an existing
entry to a different selection still succeeds, and (4) toggling an existing
entry still removes it. -/
theorem selection_cap_spec (resolve : Resolver) (m : SelectedMap)
    (ops : List SelOp) (hcap : m.length ≤ MaxSelectedItems) :
    (runSelOps resolve m ops).length ≤ MaxSelectedItems
    ∧ (m.length = MaxSelectedItems →
        (∀ id sel, m.find id = Option.none →
          changeItemSelection resolve m id sel = (m, false))
        ∧ (∀ id sel d, m.find id = some d → d.text ≠ sel →
            changeItemSelection resolve m id sel
              = (m.setEntry id (fun e => { e with text := sel }), true))
        ∧ (∀ id, m.find id ≠ Option.none →
            (applySelOp resolve m (SelOp.toggle id)).find id = Option.none)) := by
  constructor
  · unfold runSelOps
    induction ops generalizing m with
    | nil => exact hcap
    | cons op ops ih =>
      rw [List.foldl_cons]
      exact ih _ (applySelOp_length_le op hcap)
  · intro hfull
    have hnotlt : ¬ (m.length < MaxSelectedItems) := by omega
    refine ⟨?_, ?_, ?_⟩
    · intro id sel hnone
      unfold changeItemSelection
      rw [if_neg hnotlt]
      unfold SelectedMap.changeExisting
      rw [hnone]
    · intro id sel d hsome hdiff
      unfold changeItemSelection
      rw [if_neg hnotlt]
      unfold SelectedMap.changeExisting
      rw [hsome]
      simp only [if_pos hdiff]
    · intro id hsome
      simp only [applySelOp]
      cases hf : m.find id with
      | none => exact absurd hf hsome
      | some d =>
        dsimp only
        exact find_remove_self m id

/-- A committed selection holding exactly `MaxSelectedItems` entries. -/
def demoCapMap : SelectedMap :=
  (List.range MaxSelectedItems).map (fun k => ((k : Int), { text := FullSelection }))

/-- Witness for C3: at the cap, adding the absent id 200 is refused and the
map is returned unchanged. -/
theorem selection_cap_spec_spot :
    changeItemSelection (fun _ => some (true, true)) demoCapMap 200 FullSelection
      = (demoCapMap, false) :=
  (((selection_cap_spec (fun _ => some (true, true)) demoCapMap []
      (by decide)).2 (by decide)).1) 200 FullSelection (by decide)

/-- Claim C10 (implicit). `changeItemSelection` is atomic on resolution
failure: when the id is not yet selected and does not resolve to a live
message, the call returns `false` and the map afterwards equals the map
before — the tentatively inserted entry is erased again. -/
theorem changeItemSelection_unresolved (resolve : Resolver) (m : SelectedMap)
    (id : Int) (sel : TextSelection) (hid : m.find id = Option.none)
    (hres : resolve id = Option.none) :
    changeItemSelection resolve m id sel = (m, false) := by
  unfold changeItemSelection
  split
  · unfold SelectedMap.tryEmplace
    rw [hid]
    simp only
    rw [hres]
    simp only
    rw [remove_insertSorted _ hid]
  · unfold SelectedMap.changeExisting
    rw [hid]

/-- Witness for C10: a fresh map, an id the resolver rejects. -/
theorem changeItemSelection_unresolved_spot :
    changeItemSelection (fun _ => Option.none) [] 7 FullSelection = ([], false) :=
  changeItemSelection_unresolved (fun _ => Option.none) [] 7 FullSelection rfl rfl

/-! ## Section geometry

`resizeToWidth` and `recountHeight`/`refreshHeight`. The style constants the
layout reads (`st::infoMediaSkip`, `st::infoMediaMinGridSize`,
`st::infoMediaHeaderPosition.x()`, `st::infoMediaHeaderHeight`,
`st::infoMediaMargin`) live in the repository's style sheets outside this
translation unit and enter the model as explicit parameters. C++ `int`
division truncates toward zero: `Int.tdiv`/`Int.tmod`. -/

structure Style where
  infoMediaSkip : Int
  infoMediaMinGridSize : Int
  infoMediaHeaderPositionX : Int
  infoMediaHeaderHeight : Int
  infoMediaMarginTop : Int
  infoMediaMarginBottom : Int
deriving DecidableEq, Repr

/-- `Section::headerHeight()`: zero for an empty header text. -/
def Section.headerHeight (st : Style) (s : Section) : Int :=
  if s.header = HeaderText.empty then 0 else st.infoMediaHeaderHeight

/-- The grid branch of `Section::recountHeight`: walk the items in map order
setting `position = _itemsInRow * result + index`, advancing `result` by one
row height each time a row fills. Returns the re-positioned items and the
final `result`. -/
def gridLayoutPass (itemsInRow itemHeight : Int) :
    List BaseLayout → Int → Int → List BaseLayout × Int
  | [], result, _index => ([], result)
  | item :: rest, result, index =>
    let item' := { item with position := itemsInRow * result + index }
    let next :=
      if index + 1 == itemsInRow then (result + itemHeight, (0 : Int))
      else (result, index + 1)
    let tail := gridLayoutPass itemsInRow itemHeight rest next.1 next.2
    (item' :: tail.1, tail.2)

/-- The single-column branch of `Section::recountHeight`: each item's position
is the running offset, advanced by the item's height. -/
def columnLayoutPass : List BaseLayout → Int → List BaseLayout × Int
  | [], result => ([], result)
  | item :: rest, result =>
    let item' := { item with position := result }
    let tail := columnLayoutPass rest (result + item.height)
    (item' :: tail.1, tail.2)

/-- `Section::recountHeight` as called through `Section::refreshHeight`:
recompute every item's position scalar, `_rowsCount`, and `_height`. -/
def Section.refreshHeight (st : Style) (s : Section) : Section :=
  let result := s.headerHeight st
  match s.type with
  | MediaType.Photo | MediaType.Video | MediaType.RoundFile =>
    let itemHeight := s.itemWidth + st.infoMediaSkip
    let pass := gridLayoutPass s.itemsInRow itemHeight s.items
      (result + s.itemsTop) 0
    let count : Int := s.items.length
    if count.tmod s.itemsInRow ≠ 0 then
      { s with items := pass.1, height := pass.2 + itemHeight,
               rowsCount := count.tdiv s.itemsInRow + 1 }
    else
      { s with items := pass.1, height := pass.2,
               rowsCount := count.tdiv s.itemsInRow }
  | MediaType.VoiceFile | MediaType.File | MediaType.MusicFile
  | MediaType.Link =>
    let pass := columnLayoutPass s.items result
    { s with items := pass.1, height := pass.2,
             rowsCount := (s.items.length : Int) }

/-- The `resizeOneColumn` lambda of `Section::resizeToWidth`. -/
def Section.resizeOneColumn (s : Section) (itemsLeft itemWidth : Int) : Section :=
  { s with itemsLeft := itemsLeft, itemsTop := 0, itemsInRow := 1,
           itemWidth := itemWidth,
           items := s.items.map fun item =>
             { item with height := item.measureHeight itemWidth } }

/-- `Section::resizeToWidth`: no-op below the minimum width; otherwise pick
the per-kind column geometry, re-measure every item at the item width, and
`refreshHeight`. -/
def Section.resizeToWidth (st : Style) (s : Section) (newWidth : Int) : Section :=
  let minWidth := st.infoMediaMinGridSize + st.infoMediaSkip * 2
  if newWidth < minWidth then s
  else
    let s' : Section :=
      match s.type with
      | MediaType.Photo | MediaType.Video | MediaType.RoundFile =>
        let itemsLeft := st.infoMediaSkip
        let itemsTop := st.infoMediaSkip
        let itemsInRow := (newWidth - itemsLeft).tdiv
          (st.infoMediaMinGridSize + st.infoMediaSkip)
        let itemWidth := (newWidth - itemsLeft).tdiv itemsInRow
          - st.infoMediaSkip
        { s with itemsLeft := itemsLeft, itemsTop := itemsTop,
                 itemsInRow := itemsInRow, itemWidth := itemWidth,
                 items := s.items.map fun item =>
                   { item with height := item.measureHeight itemWidth } }
      | MediaType.VoiceFile | MediaType.MusicFile =>
        s.resizeOneColumn 0 newWidth
      | MediaType.File | MediaType.Link =>
        s.resizeOneColumn st.infoMediaHeaderPositionX
          (newWidth - 2 * st.infoMediaHeaderPositionX)
    s'.refreshHeight st

/-! ### Layout pass lemmas -/

theorem gridLayoutPass_length (n ih : Int) :
    ∀ (l : List BaseLayout) (r i : Int),
      (gridLayoutPass n ih l r i).1.length = l.length := by
  intro l
  induction l with
  | nil => intro r i; rfl
  | cons item rest ihl =>
    intro r i
    simp only [gridLayoutPass, List.length_cons]
    rw [ihl]

theorem columnLayoutPass_length :
    ∀ (l : List BaseLayout) (r : Int),
      (columnLayoutPass l r).1.length = l.length := by
  intro l
  induction l with
  | nil => intro r; rfl
  | cons item rest ihl =>
    intro r
    simp only [columnLayoutPass, List.length_cons]
    rw [ihl]

theorem gridLayoutPass_idem (n ih : Int) :
    ∀ (l : List BaseLayout) (r i : Int),
      gridLayoutPass n ih (gridLayoutPass n ih l r i).1 r i
        = gridLayoutPass n ih l r i := by
  intro l
  induction l with
  | nil => intro r i; rfl
  | cons item rest ihl =>
    intro r i
    simp only [gridLayoutPass]
    rw [ihl]

theorem columnLayoutPass_idem :
    ∀ (l : List BaseLayout) (r : Int),
      columnLayoutPass (columnLayoutPass l r).1 r = columnLayoutPass l r := by
  intro l
  induction l with
  | nil => intro r; rfl
  | cons item rest ihl =>
    intro r
    simp only [columnLayoutPass]
    rw [ihl]

theorem map_measure_idem (w : Int) (l : List BaseLayout) :
    ((l.map fun it => { it with height := it.measureHeight w }).map
        fun it => { it with height := it.measureHeight w })
      = l.map fun it => { it with height := it.measureHeight w } := by
  induction l with
  | nil => rfl
  | cons item rest ihl =>
    simp only [List.map_cons, List.cons.injEq]
    exact ⟨trivial, ihl⟩

theorem map_measure_gridPass (w n ih : Int) :
    ∀ (l : List BaseLayout) (r i : Int),
      ((gridLayoutPass n ih
          (l.map fun it => { it with height := it.measureHeight w }) r i).1.map
        fun it => { it with height := it.measureHeight w })
      = (gridLayoutPass n ih
          (l.map fun it => { it with height := it.measureHeight w }) r i).1 := by
  intro l
  induction l with
  | nil => intro r i; rfl
  | cons item rest ihl =>
    intro r i
    simp only [List.map_cons, gridLayoutPass, List.cons.injEq]
    exact ⟨trivial, ihl _ _⟩

theorem map_measure_columnPass (w : Int) :
    ∀ (l : List BaseLayout) (r : Int),
      ((columnLayoutPass
          (l.map fun it => { it with height := it.measureHeight w }) r).1.map
        fun it => { it with height := it.measureHeight w })
      = (columnLayoutPass
          (l.map fun it => { it with height := it.measureHeight w }) r).1 := by
  intro l
  induction l with
  | nil => intro r; rfl
  | cons item rest ihl =>
    intro r
    simp only [List.map_cons, columnLayoutPass, List.cons.injEq]
    exact ⟨trivial, ihl _⟩

/-- Claim C8. `Section::resizeToWidth` is idempotent: resizing a section twice
to the same width produces exactly the same per-item geometry (columns count,
item width, every item's position scalar and height) and the same total height
as resizing once. -/
theorem resizeToWidth_idem (st : Style) (s : Section) (w : Int) :
    (s.resizeToWidth st w).resizeToWidth st w = s.resizeToWidth st w := by
  obtain ⟨ty, hd, items, il, itop, iwd, irow, rc, tp, hh⟩ := s
  by_cases hw : w < st.infoMediaMinGridSize + st.infoMediaSkip * 2
  · simp [Section.resizeToWidth, hw]
  · cases ty
    · simp only [Section.resizeToWidth, if_neg hw]
      simp only [Section.refreshHeight, Section.headerHeight]
      simp only [gridLayoutPass_length, List.length_map]
      by_cases htm : ((items.length : Int)).tmod
          ((w - st.infoMediaSkip).tdiv (st.infoMediaMinGridSize + st.infoMediaSkip)) ≠ 0
      · simp only [if_pos htm]
        dsimp only
        simp only [map_measure_gridPass, gridLayoutPass_idem]
        simp only [gridLayoutPass_length, List.length_map]
        simp only [if_pos htm]
      · simp only [if_neg htm]
        dsimp only
        simp only [map_measure_gridPass, gridLayoutPass_idem]
        simp only [gridLayoutPass_length, List.length_map]
        simp only [if_neg htm]
    · simp only [Section.resizeToWidth, if_neg hw]
      simp only [Section.refreshHeight, Section.headerHeight]
      simp only [gridLayoutPass_length, List.length_map]
      by_cases htm : ((items.length : Int)).tmod
          ((w - st.infoMediaSkip).tdiv (st.infoMediaMinGridSize + st.infoMediaSkip)) ≠ 0
      · simp only [if_pos htm]
        dsimp only
        simp only [map_measure_gridPass, gridLayoutPass_idem]
        simp only [gridLayoutPass_length, List.length_map]
        simp only [if_pos htm]
      · simp only [if_neg htm]
        dsimp only
        simp only [map_measure_gridPass, gridLayoutPass_idem]
        simp only [gridLayoutPass_length, List.length_map]
        simp only [if_neg htm]
    · simp only [Section.resizeToWidth, if_neg hw]
      simp only [Section.refreshHeight, Section.headerHeight]
      simp only [gridLayoutPass_length, List.length_map]
      by_cases htm : ((items.length : Int)).tmod
          ((w - st.infoMediaSkip).tdiv (st.infoMediaMinGridSize + st.infoMediaSkip)) ≠ 0
      · simp only [if_pos htm]
        dsimp only
        simp only [map_measure_gridPass, gridLayoutPass_idem]
        simp only [gridLayoutPass_length, List.length_map]
        simp only [if_pos htm]
      · simp only [if_neg htm]
        dsimp only
        simp only [map_measure_gridPass, gridLayoutPass_idem]
        simp only [gridLayoutPass_length, List.length_map]
        simp only [if_neg htm]
    · simp only [Section.resizeToWidth, if_neg hw]
      simp only [Section.resizeOneColumn, Section.refreshHeight,
        Section.headerHeight]
      simp only [map_measure_columnPass, columnLayoutPass_idem]
      simp only [columnLayoutPass_length, List.length_map]
    · simp only [Section.resizeToWidth, if_neg hw]
      simp only [Section.resizeOneColumn, Section.refreshHeight,
        Section.headerHeight]
      simp only [map_measure_columnPass, columnLayoutPass_idem]
      simp only [columnLayoutPass_length, List.length_map]
    · simp only [Section.resizeToWidth, if_neg hw]
      simp only [Section.resizeOneColumn, Section.refreshHeight,
        Section.headerHeight]
      simp only [map_measure_columnPass, columnLayoutPass_idem]
      simp only [columnLayoutPass_length, List.length_map]
    · simp only [Section.resizeToWidth, if_neg hw]
      simp only [Section.resizeOneColumn, Section.refreshHeight,
        Section.headerHeight]
      simp only [map_measure_columnPass, columnLayoutPass_idem]
      simp only [columnLayoutPass_length, List.length_map]

/-- Closed form of the grid layout pass: starting from accumulator `(r, i)`
with `0 ≤ i < n`, the `k`-th processed item receives position
`n * (r + ((i+k)/n) * ih) + (i+k) % n` and keeps its other fields. -/
theorem gridLayoutPass_getD (n ih : Int) (hn : 0 < n) :
    ∀ (l : List BaseLayout) (r i : Int), 0 ≤ i → i < n →
      ∀ (k : Nat) (d : BaseLayout), k < l.length →
      (gridLayoutPass n ih l r i).1.getD k d
        = { l.getD k d with position :=
              n * (r + ((i + (k : Int)) / n) * ih) + (i + (k : Int)) % n } := by
  intro l
  induction l with
  | nil =>
    intro r i _ _ k d hk
    simp at hk
  | cons item rest ihl =>
    intro r i hi0 hin k d hk
    cases k with
    | zero =>
      simp only [gridLayoutPass, List.getD_cons_zero, Nat.cast_zero, add_zero]
      rw [Int.ediv_eq_zero_of_lt hi0 hin, Int.emod_eq_of_lt hi0 hin]
      ring_nf
    | succ k =>
      have hk' : k < rest.length := by simpa using hk
      simp only [gridLayoutPass, List.getD_cons_succ]
      by_cases hfull : i + 1 = n
      · have hbeq : (i + 1 == n) = true := by simpa using hfull
        rw [if_pos hbeq]
        dsimp only
        rw [ihl (r + ih) 0 le_rfl hn k d hk']
        have hidx : i + ((k : Int) + 1) = (k : Int) + n * 1 := by omega
        have h1 : (i + ((k : Int) + 1)) / n = (k : Int) / n + 1 := by
          rw [hidx, Int.add_mul_ediv_left _ _ (by omega)]
        have h2 : (i + ((k : Int) + 1)) % n = (k : Int) % n := by
          rw [hidx, Int.add_mul_emod_self_left]
        push_cast
        rw [h1, h2]
        ring_nf
      · have hbeq : ¬ ((i + 1 == n) = true) := by simpa using hfull
        rw [if_neg hbeq]
        dsimp only
        rw [ihl r (i + 1) (by omega) (by omega) k d hk']
        have hidx : i + 1 + (k : Int) = i + ((k : Int) + 1) := by ring
        push_cast
        rw [hidx]

/-- Closed form of the single-column layout pass: the `k`-th item's position
is the start offset plus the heights of the items before it; other fields are
kept. -/
theorem columnLayoutPass_getD :
    ∀ (l : List BaseLayout) (r : Int) (k : Nat) (d : BaseLayout), k < l.length →
      (columnLayoutPass l r).1.getD k d
        = { l.getD k d with position := r + ((l.take k).map (·.height)).sum } := by
  intro l
  induction l with
  | nil =>
    intro r k d hk
    simp at hk
  | cons item rest ihl =>
    intro r k d hk
    cases k with
    | zero =>
      simp only [columnLayoutPass, List.getD_cons_zero, List.take_zero,
        List.map_nil, List.sum_nil, add_zero]
    | succ k =>
      have hk' : k < rest.length := by simpa using hk
      simp only [columnLayoutPass, List.getD_cons_succ]
      rw [ihl (r + item.height) k d hk']
      simp only [List.take_succ_cons, List.map_cons, List.sum_cons]
      ring_nf

theorem refreshHeight_itemsInRow (st : Style) (x : Section) :
    (x.refreshHeight st).itemsInRow = x.itemsInRow := by
  rcases x with ⟨ty, hd, items, il, itop, iwd, irow, rc, tp, hh⟩
  unfold Section.refreshHeight
  cases ty <;> dsimp only <;> (try split) <;> rfl

theorem refreshHeight_itemsLeft (st : Style) (x : Section) :
    (x.refreshHeight st).itemsLeft = x.itemsLeft := by
  rcases x with ⟨ty, hd, items, il, itop, iwd, irow, rc, tp, hh⟩
  unfold Section.refreshHeight
  cases ty <;> dsimp only <;> (try split) <;> rfl

theorem refreshHeight_itemsTop (st : Style) (x : Section) :
    (x.refreshHeight st).itemsTop = x.itemsTop := by
  rcases x with ⟨ty, hd, items, il, itop, iwd, irow, rc, tp, hh⟩
  unfold Section.refreshHeight
  cases ty <;> dsimp only <;> (try split) <;> rfl

theorem refreshHeight_itemWidth (st : Style) (x : Section) :
    (x.refreshHeight st).itemWidth = x.itemWidth := by
  rcases x with ⟨ty, hd, items, il, itop, iwd, irow, rc, tp, hh⟩
  unfold Section.refreshHeight
  cases ty <;> dsimp only <;> (try split) <;> rfl

theorem refreshHeight_type (st : Style) (x : Section) :
    (x.refreshHeight st).type = x.type := by
  rcases x with ⟨ty, hd, items, il, itop, iwd, irow, rc, tp, hh⟩
  unfold Section.refreshHeight
  cases ty <;> dsimp only <;> (try split) <;> rfl

theorem refreshHeight_header (st : Style) (x : Section) :
    (x.refreshHeight st).header = x.header := by
  rcases x with ⟨ty, hd, items, il, itop, iwd, irow, rc, tp, hh⟩
  unfold Section.refreshHeight
  cases ty <;> dsimp only <;> (try split) <;> rfl

theorem refreshHeight_items_grid (st : Style) (x : Section)
    (h : x.type = MediaType.Photo ∨ x.type = MediaType.Video
      ∨ x.type = MediaType.RoundFile) :
    (x.refreshHeight st).items
      = (gridLayoutPass x.itemsInRow (x.itemWidth + st.infoMediaSkip) x.items
          (x.headerHeight st + x.itemsTop) 0).1 := by
  rcases x with ⟨ty, hd, items, il, itop, iwd, irow, rc, tp, hh⟩
  rcases h with h | h | h <;>
    (cases h; unfold Section.refreshHeight; dsimp only; split <;> rfl)

theorem refreshHeight_items_column (st : Style) (x : Section)
    (h : x.type = MediaType.VoiceFile ∨ x.type = MediaType.File
      ∨ x.type = MediaType.MusicFile ∨ x.type = MediaType.Link) :
    (x.refreshHeight st).items
      = (columnLayoutPass x.items (x.headerHeight st)).1 := by
  rcases x with ⟨ty, hd, items, il, itop, iwd, irow, rc, tp, hh⟩
  rcases h with h | h | h | h <;>
    (cases h; unfold Section.refreshHeight; dsimp only)

theorem refreshHeight_items_length (st : Style) (x : Section) :
    (x.refreshHeight st).items.length = x.items.length := by
  rcases x with ⟨ty, hd, items, il, itop, iwd, irow, rc, tp, hh⟩
  unfold Section.refreshHeight
  cases ty <;> dsimp only <;>
    first
      | (split <;> dsimp only <;> rw [gridLayoutPass_length])
      | (rw [columnLayoutPass_length])

theorem gridLayoutPass_getD_keeps (n ih : Int) :
    ∀ (l : List BaseLayout) (r i : Int) (k : Nat) (d : BaseLayout),
      k < l.length →
      ((gridLayoutPass n ih l r i).1.getD k d).height = (l.getD k d).height
      ∧ ((gridLayoutPass n ih l r i).1.getD k d).universalId
          = (l.getD k d).universalId := by
  intro l
  induction l with
  | nil =>
    intro r i k d hk
    simp at hk
  | cons item rest ihl =>
    intro r i k d hk
    cases k with
    | zero => exact ⟨rfl, rfl⟩
    | succ k =>
      have hk' : k < rest.length := by simpa using hk
      simp only [gridLayoutPass, List.getD_cons_succ]
      exact ihl _ _ k d hk'

theorem columnLayoutPass_getD_keeps :
    ∀ (l : List BaseLayout) (r : Int) (k : Nat) (d : BaseLayout),
      k < l.length →
      ((columnLayoutPass l r).1.getD k d).height = (l.getD k d).height
      ∧ ((columnLayoutPass l r).1.getD k d).universalId
          = (l.getD k d).universalId := by
  intro l
  induction l with
  | nil =>
    intro r k d hk
    simp at hk
  | cons item rest ihl =>
    intro r k d hk
    cases k with
    | zero => exact ⟨rfl, rfl⟩
    | succ k =>
      have hk' : k < rest.length := by simpa using hk
      simp only [columnLayoutPass, List.getD_cons_succ]
      exact ihl _ k d hk'

theorem map_measure_getD (w : Int) :
    ∀ (l : List BaseLayout) (k : Nat) (d : BaseLayout), k < l.length →
      ((l.map fun it => { it with height := it.measureHeight w }).getD k d).height
        = (l.getD k d).measureHeight w
      ∧ ((l.map fun it => { it with height := it.measureHeight w }).getD k d).universalId
        = (l.getD k d).universalId := by
  intro l
  induction l with
  | nil =>
    intro k d hk
    simp at hk
  | cons item rest ihl =>
    intro k d hk
    cases k with
    | zero => exact ⟨rfl, rfl⟩
    | succ k =>
      have hk' : k < rest.length := by simpa using hk
      simp only [List.map_cons, List.getD_cons_succ]
      exact ihl k d hk'

theorem resizeToWidth_below_min (st : Style) (s : Section) (w : Int)
    (hw : w < st.infoMediaMinGridSize + st.infoMediaSkip * 2) :
    s.resizeToWidth st w = s := by
  simp [Section.resizeToWidth, hw]

theorem resizeToWidth_grid_eq (st : Style) (s : Section) (w : Int)
    (hty : s.type = MediaType.Photo ∨ s.type = MediaType.Video
      ∨ s.type = MediaType.RoundFile)
    (hw : ¬ w < st.infoMediaMinGridSize + st.infoMediaSkip * 2) :
    s.resizeToWidth st w
      = Section.refreshHeight st
          { s with
            itemsLeft := st.infoMediaSkip,
            itemsTop := st.infoMediaSkip,
            itemsInRow := (w - st.infoMediaSkip).tdiv
              (st.infoMediaMinGridSize + st.infoMediaSkip),
            itemWidth := (w - st.infoMediaSkip).tdiv
                ((w - st.infoMediaSkip).tdiv
                  (st.infoMediaMinGridSize + st.infoMediaSkip))
              - st.infoMediaSkip,
            items := s.items.map fun item =>
              { item with height := item.measureHeight (
                  (w - st.infoMediaSkip).tdiv
                      ((w - st.infoMediaSkip).tdiv
                        (st.infoMediaMinGridSize + st.infoMediaSkip))
                    - st.infoMediaSkip) } } := by
  rcases s with ⟨ty, hd, items, il, itop, iwd, irow, rc, tp, hh⟩
  rcases hty with h | h | h <;>
    (cases h; simp only [Section.resizeToWidth, if_neg hw])

theorem resizeToWidth_audio_eq (st : Style) (s : Section) (w : Int)
    (hty : s.type = MediaType.VoiceFile ∨ s.type = MediaType.MusicFile)
    (hw : ¬ w < st.infoMediaMinGridSize + st.infoMediaSkip * 2) :
    s.resizeToWidth st w
      = Section.refreshHeight st (s.resizeOneColumn 0 w) := by
  rcases s with ⟨ty, hd, items, il, itop, iwd, irow, rc, tp, hh⟩
  rcases hty with h | h <;>
    (cases h; simp only [Section.resizeToWidth, if_neg hw])

theorem resizeToWidth_fileLink_eq (st : Style) (s : Section) (w : Int)
    (hty : s.type = MediaType.File ∨ s.type = MediaType.Link)
    (hw : ¬ w < st.infoMediaMinGridSize + st.infoMediaSkip * 2) :
    s.resizeToWidth st w
      = Section.refreshHeight st
          (s.resizeOneColumn st.infoMediaHeaderPositionX
            (w - 2 * st.infoMediaHeaderPositionX)) := by
  rcases s with ⟨ty, hd, items, il, itop, iwd, irow, rc, tp, hh⟩
  rcases hty with h | h <;>
    (cases h; simp only [Section.resizeToWidth, if_neg hw])

/-- Claim C9. For a grid-kind section (Photo/Video/RoundFile) at or above the
minimum width, `resizeToWidth(w)` sets the column count to
`⌊(w − leftMargin) / (minTileSize + gap)⌋` and the item width to
`⌊(w − leftMargin) / columns⌋ − gap` and re-measures every item at that item
width; Voice/Music get one full-width column, File/Link one column of width
`w − 2·margin`; below the minimum width the call changes nothing. (The style
metrics are nonnegative, so the C++ truncating divisions coincide with the
floors stated by the spec.) -/
theorem resizeToWidth_formulas (st : Style) (s : Section) (w : Int)
    (hskip : 0 ≤ st.infoMediaSkip) (hgrid : 0 < st.infoMediaMinGridSize) :
    ((s.type = MediaType.Photo ∨ s.type = MediaType.Video
        ∨ s.type = MediaType.RoundFile) →
      ¬ w < st.infoMediaMinGridSize + st.infoMediaSkip * 2 →
      (s.resizeToWidth st w).itemsInRow
          = (w - st.infoMediaSkip) / (st.infoMediaMinGridSize + st.infoMediaSkip)
        ∧ (s.resizeToWidth st w).itemWidth
            = (w - st.infoMediaSkip) / (s.resizeToWidth st w).itemsInRow
              - st.infoMediaSkip
        ∧ (s.resizeToWidth st w).itemsLeft = st.infoMediaSkip
        ∧ (s.resizeToWidth st w).items.length = s.items.length
        ∧ ∀ k d, k < s.items.length →
            ((s.resizeToWidth st w).items.getD k d).height
              = (s.items.getD k d).measureHeight
                  ((s.resizeToWidth st w).itemWidth))
    ∧ ((s.type = MediaType.VoiceFile ∨ s.type = MediaType.MusicFile) →
      ¬ w < st.infoMediaMinGridSize + st.infoMediaSkip * 2 →
      (s.resizeToWidth st w).itemsInRow = 1
        ∧ (s.resizeToWidth st w).itemsLeft = 0
        ∧ (s.resizeToWidth st w).itemWidth = w
        ∧ (s.resizeToWidth st w).items.length = s.items.length
        ∧ ∀ k d, k < s.items.length →
            ((s.resizeToWidth st w).items.getD k d).height
              = (s.items.getD k d).measureHeight w)
    ∧ ((s.type = MediaType.File ∨ s.type = MediaType.Link) →
      ¬ w < st.infoMediaMinGridSize + st.infoMediaSkip * 2 →
      (s.resizeToWidth st w).itemsInRow = 1
        ∧ (s.resizeToWidth st w).itemsLeft = st.infoMediaHeaderPositionX
        ∧ (s.resizeToWidth st w).itemWidth = w - 2 * st.infoMediaHeaderPositionX
        ∧ (s.resizeToWidth st w).items.length = s.items.length
        ∧ ∀ k d, k < s.items.length →
            ((s.resizeToWidth st w).items.getD k d).height
              = (s.items.getD k d).measureHeight
                  (w - 2 * st.infoMediaHeaderPositionX))
    ∧ (w < st.infoMediaMinGridSize + st.infoMediaSkip * 2 →
        s.resizeToWidth st w = s) := by
  refine ⟨?_, ?_, ?_, ?_⟩
  · intro hty hw
    have ha : 0 ≤ w - st.infoMediaSkip := by omega
    have hb : 0 < st.infoMediaMinGridSize + st.infoMediaSkip := by omega
    have hn0 : 0 ≤ (w - st.infoMediaSkip).tdiv
        (st.infoMediaMinGridSize + st.infoMediaSkip) :=
      Int.tdiv_nonneg ha hb.le
    rw [resizeToWidth_grid_eq st s w hty hw]
    have hG : ({ s with
        itemsLeft := st.infoMediaSkip,
        itemsTop := st.infoMediaSkip,
        itemsInRow := (w - st.infoMediaSkip).tdiv
          (st.infoMediaMinGridSize + st.infoMediaSkip),
        itemWidth := (w - st.infoMediaSkip).tdiv
            ((w - st.infoMediaSkip).tdiv
              (st.infoMediaMinGridSize + st.infoMediaSkip))
          - st.infoMediaSkip,
        items := s.items.map fun item =>
          { item with height := item.measureHeight (
              (w - st.infoMediaSkip).tdiv
                  ((w - st.infoMediaSkip).tdiv
                    (st.infoMediaMinGridSize + st.infoMediaSkip))
                - st.infoMediaSkip) } } : Section).type = s.type := rfl
    refine ⟨?_, ?_, ?_, ?_, ?_⟩
    · rw [refreshHeight_itemsInRow]
      exact Int.tdiv_eq_ediv ha hb.le
    · rw [refreshHeight_itemWidth, refreshHeight_itemsInRow]
      show (w - st.infoMediaSkip).tdiv _ - st.infoMediaSkip = _
      rw [Int.tdiv_eq_ediv ha hn0]
    · rw [refreshHeight_itemsLeft]
    · rw [refreshHeight_items_length]
      exact List.length_map _ _
    · intro k d hk
      rw [refreshHeight_itemWidth]
      rw [refreshHeight_items_grid st _ (by rw [hG]; exact hty)]
      have hklen : k < (s.items.map fun item =>
          { item with height := item.measureHeight (
              (w - st.infoMediaSkip).tdiv
                  ((w - st.infoMediaSkip).tdiv
                    (st.infoMediaMinGridSize + st.infoMediaSkip))
                - st.infoMediaSkip) }).length := by
        simpa using hk
      rw [(gridLayoutPass_getD_keeps _ _ _ _ _ k d hklen).1]
      exact (map_measure_getD _ s.items k d hk).1
  · intro hty hw
    rw [resizeToWidth_audio_eq st s w hty hw]
    refine ⟨?_, ?_, ?_, ?_, ?_⟩
    · rw [refreshHeight_itemsInRow]; rfl
    · rw [refreshHeight_itemsLeft]; rfl
    · rw [refreshHeight_itemWidth]; rfl
    · rw [refreshHeight_items_length]
      exact List.length_map _ _
    · intro k d hk
      rw [refreshHeight_items_column st _ ?hcol]
      case hcol =>
        rcases hty with h | h
        · exact Or.inl h
        · exact Or.inr (Or.inr (Or.inl h))
      have hklen : k < ((s.resizeOneColumn 0 w).items).length := by
        simpa [Section.resizeOneColumn] using hk
      rw [(columnLayoutPass_getD_keeps _ _ k d hklen).1]
      show ((s.items.map fun item =>
          { item with height := item.measureHeight w }).getD k d).height = _
      exact (map_measure_getD w s.items k d hk).1
  · intro hty hw
    rw [resizeToWidth_fileLink_eq st s w hty hw]
    refine ⟨?_, ?_, ?_, ?_, ?_⟩
    · rw [refreshHeight_itemsInRow]; rfl
    · rw [refreshHeight_itemsLeft]; rfl
    · rw [refreshHeight_itemWidth]; rfl
    · rw [refreshHeight_items_length]
      exact List.length_map _ _
    · intro k d hk
      rw [refreshHeight_items_column st _ ?hcol]
      case hcol =>
        rcases hty with h | h
        · exact Or.inr (Or.inl h)
        · exact Or.inr (Or.inr (Or.inr h))
      have hklen : k < ((s.resizeOneColumn st.infoMediaHeaderPositionX
          (w - 2 * st.infoMediaHeaderPositionX)).items).length := by
        simpa [Section.resizeOneColumn] using hk
      rw [(columnLayoutPass_getD_keeps _ _ k d hklen).1]
      show ((s.items.map fun item =>
          { item with height := item.measureHeight (
              w - 2 * st.infoMediaHeaderPositionX) }).getD k d).height = _
      exact (map_measure_getD _ s.items k d hk).1
  · intro hw
    exact resizeToWidth_below_min st s w hw

/-- Representative style metrics (positive skip and grid size, as in the
repository's style sheets). -/
def demoStyle : Style :=
  { infoMediaSkip := 5, infoMediaMinGridSize := 90,
    infoMediaHeaderPositionX := 14, infoMediaHeaderHeight := 28,
    infoMediaMarginTop := 6, infoMediaMarginBottom := 2 }

/-- Witness for C9: a two-item photo section resized to width 400 gets
`⌊(400 − 5) / (90 + 5)⌋ = 4` columns. -/
theorem resizeToWidth_formulas_spot :
    ((Section.runAddItems MediaType.Photo
        [demoLayout 103, demoLayout 104]).resizeToWidth demoStyle 400).itemsInRow
      = (400 - 5) / (90 + 5) :=
  ((resizeToWidth_formulas demoStyle
      (Section.runAddItems MediaType.Photo [demoLayout 103, demoLayout 104]) 400
      (by decide) (by decide)).1
    (Or.inl (runAddItems_type MediaType.Photo [demoLayout 103, demoLayout 104]))
    (by decide)).1

/-! ## Geometry lookups -/

structure QPoint where
  x : Int
  y : Int
deriving DecidableEq, Repr

structure QRect where
  x : Int
  y : Int
  width : Int
  height : Int
deriving DecidableEq, Repr

/-- `QRect::contains(QPoint)`: edges inclusive, `right() = x + width - 1` and
`bottom() = y + height - 1`. -/
def QRect.containsPoint (r : QRect) (p : QPoint) : Bool :=
  r.x ≤ p.x && p.x ≤ r.x + r.width - 1 && r.y ≤ p.y && p.y ≤ r.y + r.height - 1

/-- `floorclamp(value, step, lowest, highest)` from the repository's ui
utilities (declared outside this translation unit): the clamped truncating
quotient `qMin(qMax(value / step, lowest), highest)`. -/
def floorclamp (value step lowest highest : Int) : Int :=
  min (max (value.tdiv step) lowest) highest

/-- `Section::findItemRect`. -/
def Section.findItemRect (st : Style) (s : Section) (item : BaseLayout) : QRect :=
  let position := item.position
  let top := position.tdiv s.itemsInRow
  let indexInRow := position.tmod s.itemsInRow
  let left := s.itemsLeft + indexInRow * (s.itemWidth + st.infoMediaSkip)
  ⟨left, top, s.itemWidth, item.height⟩

/-- `ListWidget::FoundItem` (`{layout, rect, exact}`). -/
structure FoundItem where
  layout : BaseLayout
  geometry : QRect
  exact : Bool

/-- First index satisfying the predicate (`length` plays `end()`): the result
of a `ranges::lower_bound` over the partitioned flat_map order. -/
def firstIdxFrom (p : BaseLayout → Bool) : List BaseLayout → Nat
  | [] => 0
  | it :: rest => if p it then 0 else firstIdxFrom p rest + 1

/-- `Section::findItemAfterTop`: the first item whose bottom
(`position / itemsInRow + height`) lies strictly below `top`
(`lower_bound` with `less_equal`). -/
def Section.findItemAfterTopIdx (s : Section) (top : Int) : Nat :=
  firstIdxFrom (fun item =>
    decide (top < item.position.tdiv s.itemsInRow + item.height)) s.items

/-- `Section::findItemByPoint` (`Expects(!_items.empty())`): locate the row by
`findItemAfterTop` (stepping back when past the end), then — if the point is
not above that item's rect — advance by the clamped column quotient of the raw
`point.x()`, clamping at the last item. -/
def Section.findItemByPoint (st : Style) (s : Section) (point : QPoint) :
    FoundItem :=
  let idx0 := s.findItemAfterTopIdx point.y
  let idx1 := if idx0 = s.items.length then s.items.length - 1 else idx0
  let item := s.items.getD idx1 default
  let rect := s.findItemRect st item
  if point.y ≥ rect.y then
    let shift := floorclamp point.x (s.itemWidth + st.infoMediaSkip)
      0 s.itemsInRow
    let idx := min (idx1 + shift.toNat) (s.items.length - 1)
    let item := s.items.getD idx default
    let rect := s.findItemRect st item
    ⟨item, rect, rect.containsPoint point⟩
  else
    ⟨item, rect, rect.containsPoint point⟩

/-- `lower_bound` returning the last element when nothing matches
(the `--itemIt` after a failed search); `default` only for the empty list the
source excludes by `Expects`. -/
def lowerBoundOrLast (p : BaseLayout → Bool) : List BaseLayout → BaseLayout
  | [] => default
  | [it] => it
  | it :: it2 :: rest => if p it then it else lowerBoundOrLast p (it2 :: rest)

/-- `Section::findItemNearId` (`Expects(!_items.empty())`): `lower_bound` by
descending id (first item with `id ≤ universalId`, else the last), exact iff
the ids agree. -/
def Section.findItemNearId (st : Style) (s : Section) (universalId : Int) :
    FoundItem :=
  let item := lowerBoundOrLast
    (fun it => decide (it.universalId ≤ universalId)) s.items
  ⟨item, s.findItemRect st item, item.universalId == universalId⟩

/-! ### Lookup lemmas -/

theorem getD_mem {l : List BaseLayout} {k : Nat} (d : BaseLayout)
    (hk : k < l.length) : l.getD k d ∈ l := by
  rw [List.getD_eq_getElem?_getD, List.getElem?_eq_getElem hk]
  exact List.getElem_mem hk

theorem firstIdxFrom_le (p : BaseLayout → Bool) :
    ∀ (l : List BaseLayout), firstIdxFrom p l ≤ l.length := by
  intro l
  induction l with
  | nil => exact Nat.le_refl 0
  | cons it rest ih =>
    simp only [firstIdxFrom]
    split
    · simp
    · simpa using ih

theorem firstIdxFrom_eq (p : BaseLayout → Bool) (d : BaseLayout) :
    ∀ (l : List BaseLayout) (j : Nat), j < l.length →
      p (l.getD j d) = true → (∀ m, m < j → p (l.getD m d) = false) →
      firstIdxFrom p l = j := by
  intro l
  induction l with
  | nil =>
    intro j hj
    simp at hj
  | cons it rest ih =>
    intro j hj hpj hbefore
    cases j with
    | zero =>
      simp only [List.getD_cons_zero] at hpj
      simp [firstIdxFrom, hpj]
    | succ j =>
      have hp0 : p it = false := by
        have := hbefore 0 (Nat.succ_pos j)
        simpa using this
      simp only [firstIdxFrom, hp0, if_false, Bool.false_eq_true]
      have hj' : j < rest.length := by simpa using hj
      rw [ih j hj' (by simpa using hpj) ?_]
      intro m hm
      have := hbefore (m + 1) (by omega)
      simpa using this

theorem lowerBoundOrLast_mem (p : BaseLayout → Bool) :
    ∀ (l : List BaseLayout), l ≠ [] → lowerBoundOrLast p l ∈ l := by
  intro l
  induction l with
  | nil => intro h; exact absurd rfl h
  | cons it rest ih =>
    intro _
    cases rest with
    | nil => simp [lowerBoundOrLast]
    | cons it2 rest2 =>
      simp only [lowerBoundOrLast]
      split
      · exact List.mem_cons_self _ _
      · exact List.mem_cons_of_mem it (ih (by simp))

theorem lowerBoundOrLast_exact {q : Int} :
    ∀ (l : List BaseLayout),
      List.Pairwise (fun a b : BaseLayout => b.universalId < a.universalId) l →
      (∃ it ∈ l, it.universalId = q) →
      (lowerBoundOrLast (fun it => decide (it.universalId ≤ q)) l).universalId
        = q := by
  intro l
  induction l with
  | nil =>
    intro _ hex
    simp at hex
  | cons it rest ih =>
    intro hsorted hex
    have hpw := (List.pairwise_cons.mp hsorted).1
    have htail := (List.pairwise_cons.mp hsorted).2
    cases rest with
    | nil =>
      obtain ⟨x, hx, hxq⟩ := hex
      rcases List.mem_singleton.mp hx with rfl
      simpa [lowerBoundOrLast] using hxq
    | cons it2 rest2 =>
      obtain ⟨x, hx, hxq⟩ := hex
      simp only [lowerBoundOrLast]
      split
      · next hle =>
        rcases List.mem_cons.mp hx with rfl | hx'
        · exact hxq
        · exfalso
          have hlt : x.universalId < it.universalId := hpw x hx'
          have : it.universalId ≤ q := by simpa using hle
          omega
      · next hgt =>
        have hqlt : q < it.universalId := by
          by_contra hcon
          exact hgt (by simpa using not_lt.mp hcon)
        rcases List.mem_cons.mp hx with rfl | hx'
        · omega
        · exact ih htail ⟨x, hx', hxq⟩

theorem lowerBoundOrLast_found {q : Int} :
    ∀ (l : List BaseLayout),
      List.Pairwise (fun a b : BaseLayout => b.universalId < a.universalId) l →
      (∃ it ∈ l, it.universalId ≤ q) →
      (lowerBoundOrLast (fun it => decide (it.universalId ≤ q)) l).universalId
          ≤ q
      ∧ ∀ it ∈ l, it.universalId ≤ q →
          it.universalId ≤ (lowerBoundOrLast
            (fun it => decide (it.universalId ≤ q)) l).universalId := by
  intro l
  induction l with
  | nil =>
    intro _ hex
    simp at hex
  | cons it rest ih =>
    intro hsorted hex
    have hpw := (List.pairwise_cons.mp hsorted).1
    have htail := (List.pairwise_cons.mp hsorted).2
    cases rest with
    | nil =>
      obtain ⟨x, hx, hxq⟩ := hex
      rcases List.mem_singleton.mp hx with rfl
      constructor
      · simpa [lowerBoundOrLast] using hxq
      · intro y hy _
        rcases List.mem_singleton.mp hy with rfl
        simp [lowerBoundOrLast]
    | cons it2 rest2 =>
      simp only [lowerBoundOrLast]
      split
      · next hle =>
        have hle' : it.universalId ≤ q := by simpa using hle
        refine ⟨hle', ?_⟩
        intro y hy _
        rcases List.mem_cons.mp hy with rfl | hy'
        · exact le_refl _
        · exact le_of_lt (hpw y hy')
      · next hgt =>
        have hqlt : q < it.universalId := by
          by_contra hcon
          exact hgt (by simpa using not_lt.mp hcon)
        have hex' : ∃ x ∈ it2 :: rest2, x.universalId ≤ q := by
          obtain ⟨x, hx, hxq⟩ := hex
          rcases List.mem_cons.mp hx with rfl | hx'
          · omega
          · exact ⟨x, hx', hxq⟩
        obtain ⟨h1, h2⟩ := ih htail hex'
        refine ⟨h1, ?_⟩
        intro y hy hyq
        rcases List.mem_cons.mp hy with rfl | hy'
        · omega
        · exact h2 y hy' hyq

theorem lowerBoundOrLast_min {q : Int} :
    ∀ (l : List BaseLayout),
      List.Pairwise (fun a b : BaseLayout => b.universalId < a.universalId) l →
      (∀ it ∈ l, q < it.universalId) →
      ∀ it ∈ l,
        (lowerBoundOrLast
            (fun it2 => decide (it2.universalId ≤ q)) l).universalId
          ≤ it.universalId := by
  intro l
  induction l with
  | nil => intro _ _ it hit; cases hit
  | cons it rest ih =>
    intro hsorted hall y hy
    have hpw := (List.pairwise_cons.mp hsorted).1
    have htail := (List.pairwise_cons.mp hsorted).2
    cases rest with
    | nil =>
      rcases List.mem_singleton.mp hy with rfl
      simp [lowerBoundOrLast]
    | cons it2 rest2 =>
      have hq : q < it.universalId := hall it (List.mem_cons_self _ _)
      have hfalse : decide (it.universalId ≤ q) = false := by
        simp only [decide_eq_false_iff_not]
        omega
      simp only [lowerBoundOrLast, hfalse, Bool.false_eq_true, if_false]
      have hmem : lowerBoundOrLast (fun it2 => decide (it2.universalId ≤ q))
          (it2 :: rest2) ∈ it2 :: rest2 :=
        lowerBoundOrLast_mem _ _ (by simp)
      rcases List.mem_cons.mp hy with rfl | hy'
      · exact le_of_lt (hpw _ hmem)
      · exact ih htail (fun z hz => hall z (List.mem_cons_of_mem _ hz)) y hy'

/-- Core geometry fact behind `findItemByPoint` on a laid-out grid section:
when the point lies inside the `k`-th item's cell rectangle, the lookup
returns exactly that item with `exact = true`. The hypotheses describe the
state `refreshHeight` establishes for grid kinds: row-major closed-form
positions, left margin equal to the inter-item gap, and a uniform measured
height bounded by the row stride. -/
theorem findItemByPoint_grid_exact
    (st : Style) (s : Section) (h r0 : Int) (N : Nat)
    (hskip : 0 ≤ st.infoMediaSkip)
    (hN : 0 < N) (hn : s.itemsInRow = (N : Int))
    (hil : s.itemsLeft = st.infoMediaSkip)
    (hw0 : 0 ≤ s.itemWidth)
    (hr0 : 0 ≤ r0)
    (hle : h ≤ s.itemWidth + st.infoMediaSkip)
    (hitems : ∀ m : Nat, m < s.items.length →
      (s.items.getD m default).position
          = s.itemsInRow
              * (r0 + ((m : Int) / (N : Int)) * (s.itemWidth + st.infoMediaSkip))
            + (m : Int) % (N : Int)
      ∧ (s.items.getD m default).height = h)
    (p : QPoint) (k : Nat) (hk : k < s.items.length)
    (hcont : (s.findItemRect st (s.items.getD k default)).containsPoint p
        = true) :
    s.findItemByPoint st p
      = ⟨s.items.getD k default, s.findItemRect st (s.items.getD k default),
          true⟩ := by
  have hnpos : (0 : Int) < (N : Int) := by exact_mod_cast hN
  have hihnn : 0 ≤ s.itemWidth + st.infoMediaSkip := by omega
  have hynn : ∀ m : Nat, 0 ≤ r0
      + ((m : Int) / (N : Int)) * (s.itemWidth + st.infoMediaSkip) := by
    intro m
    have h1 : 0 ≤ (m : Int) / (N : Int) :=
      Int.ediv_nonneg (by positivity) hnpos.le
    have h2 : 0 ≤ ((m : Int) / (N : Int)) * (s.itemWidth + st.infoMediaSkip) :=
      mul_nonneg h1 hihnn
    omega
  have hposnn : ∀ m : Nat, 0 ≤ (N : Int)
      * (r0 + ((m : Int) / (N : Int)) * (s.itemWidth + st.infoMediaSkip))
      + (m : Int) % (N : Int) := by
    intro m
    have h1 := mul_nonneg hnpos.le (hynn m)
    have h2 : 0 ≤ (m : Int) % (N : Int) := Int.emod_nonneg _ (ne_of_gt hnpos)
    omega
  have hTop : ∀ m : Nat, m < s.items.length →
      ((s.items.getD m default).position).tdiv s.itemsInRow
        = r0 + ((m : Int) / (N : Int)) * (s.itemWidth + st.infoMediaSkip) := by
    intro m hm
    rw [(hitems m hm).1, hn]
    rw [Int.tdiv_eq_ediv (hposnn m) hnpos.le]
    have hrw : (N : Int)
          * (r0 + ((m : Int) / (N : Int)) * (s.itemWidth + st.infoMediaSkip))
          + (m : Int) % (N : Int)
        = (m : Int) % (N : Int) + (N : Int)
          * (r0 + ((m : Int) / (N : Int)) * (s.itemWidth + st.infoMediaSkip)) := by
      ring
    rw [hrw, Int.add_mul_ediv_left _ _ (ne_of_gt hnpos),
      Int.ediv_eq_zero_of_lt (Int.emod_nonneg _ (ne_of_gt hnpos))
        (Int.emod_lt_of_pos _ hnpos)]
    ring
  have hModv : ∀ m : Nat, m < s.items.length →
      ((s.items.getD m default).position).tmod s.itemsInRow
        = (m : Int) % (N : Int) := by
    intro m hm
    rw [(hitems m hm).1, hn]
    rw [Int.tmod_eq_emod (hposnn m) hnpos.le]
    have hrw : (N : Int)
          * (r0 + ((m : Int) / (N : Int)) * (s.itemWidth + st.infoMediaSkip))
          + (m : Int) % (N : Int)
        = (m : Int) % (N : Int) + (N : Int)
          * (r0 + ((m : Int) / (N : Int)) * (s.itemWidth + st.infoMediaSkip)) := by
      ring
    rw [hrw, Int.add_mul_emod_self_left,
      Int.emod_eq_of_lt (Int.emod_nonneg _ (ne_of_gt hnpos))
        (Int.emod_lt_of_pos _ hnpos)]
  have hrect : ∀ m : Nat, m < s.items.length →
      s.findItemRect st (s.items.getD m default)
        = ⟨st.infoMediaSkip
              + ((m : Int) % (N : Int)) * (s.itemWidth + st.infoMediaSkip),
            r0 + ((m : Int) / (N : Int)) * (s.itemWidth + st.infoMediaSkip),
            s.itemWidth, h⟩ := by
    intro m hm
    unfold Section.findItemRect
    dsimp only
    rw [hTop m hm, hModv m hm, hil, (hitems m hm).2]
  -- the four inequalities of containment in the k-th cell
  have hcontOrig := hcont
  rw [hrect k hk] at hcont
  simp only [QRect.containsPoint, Bool.and_eq_true, decide_eq_true_eq] at hcont
  obtain ⟨⟨⟨hx1, hx2⟩, hy1⟩, hy2⟩ := hcont
  have hck0 : 0 ≤ (k : Int) % (N : Int) := Int.emod_nonneg _ (ne_of_gt hnpos)
  have hcklt : (k : Int) % (N : Int) < (N : Int) := Int.emod_lt_of_pos _ hnpos
  have hckih : 0 ≤ ((k : Int) % (N : Int)) * (s.itemWidth + st.infoMediaSkip) :=
    mul_nonneg hck0 hihnn
  have hw1 : 1 ≤ s.itemWidth := by omega
  have hh1 : 1 ≤ h := by omega
  have hihpos : 0 < s.itemWidth + st.infoMediaSkip := by omega
  have hcast_div : ((k / N : Nat) : Int) = (k : Int) / (N : Int) := by
    rw [Int.ofNat_tdiv]
    exact Int.tdiv_eq_ediv (by positivity) hnpos.le
  have hcast_mod : ((k % N : Nat) : Int) = (k : Int) % (N : Int) := by
    rw [Int.ofNat_tmod]
    exact Int.tmod_eq_emod (by positivity) hnpos.le
  -- the binary search lands on the first item of the k-th row
  have hrs_le : k / N * N ≤ k := Nat.div_mul_le_self k N
  have hrs_lt : k / N * N < s.items.length := lt_of_le_of_lt hrs_le hk
  have hrscast_div :
      ((k / N * N : Nat) : Int) / (N : Int) = (k : Int) / (N : Int) := by
    rw [Nat.cast_mul, hcast_div, Int.mul_ediv_cancel _ (ne_of_gt hnpos)]
  have hidx0 : s.findItemAfterTopIdx p.y = k / N * N := by
    unfold Section.findItemAfterTopIdx
    apply firstIdxFrom_eq _ default _ _ hrs_lt
    · rw [decide_eq_true_eq, hTop _ hrs_lt, (hitems _ hrs_lt).2, hrscast_div]
      omega
    · intro m hm
      have hmlen : m < s.items.length := lt_trans hm hrs_lt
      rw [decide_eq_false_iff_not, not_lt, hTop m hmlen, (hitems m hmlen).2]
      have hmcast_div : ((m / N : Nat) : Int) = (m : Int) / (N : Int) := by
        rw [Int.ofNat_tdiv]
        exact Int.tdiv_eq_ediv (by positivity) hnpos.le
      have hq : m / N < k / N := (Nat.div_lt_iff_lt_mul hN).mpr hm
      have hmq : (m : Int) / (N : Int) ≤ (k : Int) / (N : Int) - 1 := by
        rw [← hmcast_div, ← hcast_div]
        omega
      have h3 : ((m : Int) / (N : Int)) * (s.itemWidth + st.infoMediaSkip)
          ≤ ((k : Int) / (N : Int) - 1) * (s.itemWidth + st.infoMediaSkip) :=
        mul_le_mul_of_nonneg_right hmq hihnn
      have h4 : ((k : Int) / (N : Int) - 1) * (s.itemWidth + st.infoMediaSkip)
          = ((k : Int) / (N : Int)) * (s.itemWidth + st.infoMediaSkip)
            - (s.itemWidth + st.infoMediaSkip) := by
        ring
      linarith [hy1, hle]
  have hshift : floorclamp p.x (s.itemWidth + st.infoMediaSkip) 0 s.itemsInRow
      = (k : Int) % (N : Int) := by
    unfold floorclamp
    have hpx0 : 0 ≤ p.x := by omega
    rw [Int.tdiv_eq_ediv hpx0 hihnn]
    have hsplit : p.x
        = (p.x - ((k : Int) % (N : Int)) * (s.itemWidth + st.infoMediaSkip))
          + (s.itemWidth + st.infoMediaSkip) * ((k : Int) % (N : Int)) := by
      ring
    rw [hsplit, Int.add_mul_ediv_left _ _ (ne_of_gt hihpos),
      Int.ediv_eq_zero_of_lt (by omega) (by omega), zero_add, hn]
    rw [max_eq_left hck0, min_eq_left hcklt.le]
  unfold Section.findItemByPoint
  dsimp only
  rw [hidx0]
  have hne : ¬ (k / N * N = s.items.length) := by omega
  rw [if_neg hne]
  rw [hrect _ hrs_lt, hrscast_div]
  dsimp only
  have hbranch : p.y ≥ r0 + (k : Int) / (N : Int) * (s.itemWidth + st.infoMediaSkip) :=
    hy1
  rw [if_pos hbranch]
  rw [hshift, ← hcast_mod, Int.toNat_natCast]
  have hknat : k / N * N + k % N = k := by
    rw [Nat.mul_comm (k / N) N]
    exact Nat.div_add_mod k N
  rw [hknat, min_eq_left (by omega : k ≤ s.items.length - 1), hcontOrig]

theorem gridLayoutPass_ids (n ih : Int) :
    ∀ (l : List BaseLayout) (r i : Int),
      (gridLayoutPass n ih l r i).1.map (·.universalId)
        = l.map (·.universalId) := by
  intro l
  induction l with
  | nil => intro r i; rfl
  | cons item rest ihl =>
    intro r i
    simp only [gridLayoutPass, List.map_cons, List.cons.injEq]
    exact ⟨trivial, ihl _ _⟩

theorem columnLayoutPass_ids :
    ∀ (l : List BaseLayout) (r : Int),
      (columnLayoutPass l r).1.map (·.universalId)
        = l.map (·.universalId) := by
  intro l
  induction l with
  | nil => intro r; rfl
  | cons item rest ihl =>
    intro r
    simp only [columnLayoutPass, List.map_cons, List.cons.injEq]
    exact ⟨trivial, ihl _⟩

theorem map_measure_ids (w : Int) (l : List BaseLayout) :
    ((l.map fun it => { it with height := it.measureHeight w }).map
        (·.universalId))
      = l.map (·.universalId) := by
  induction l with
  | nil => rfl
  | cons item rest ihl =>
    simp only [List.map_cons, List.cons.injEq]
    exact ⟨trivial, ihl⟩

theorem resizeToWidth_items_grid (st : Style) (s : Section) (w : Int)
    (hty : s.type = MediaType.Photo ∨ s.type = MediaType.Video
      ∨ s.type = MediaType.RoundFile)
    (hw : ¬ w < st.infoMediaMinGridSize + st.infoMediaSkip * 2) :
    (s.resizeToWidth st w).items
      = (gridLayoutPass
          ((w - st.infoMediaSkip).tdiv (st.infoMediaMinGridSize + st.infoMediaSkip))
          ((w - st.infoMediaSkip).tdiv
              ((w - st.infoMediaSkip).tdiv
                (st.infoMediaMinGridSize + st.infoMediaSkip))
            - st.infoMediaSkip + st.infoMediaSkip)
          (s.items.map fun item =>
            { item with height := item.measureHeight (
                (w - st.infoMediaSkip).tdiv
                    ((w - st.infoMediaSkip).tdiv
                      (st.infoMediaMinGridSize + st.infoMediaSkip))
                  - st.infoMediaSkip) })
          (s.headerHeight st + st.infoMediaSkip) 0).1 := by
  rcases s with ⟨ty, hd, items, il, itop, iwd, irow, rc, tp, hh⟩
  rcases hty with h | h | h <;>
    (cases h
     simp only [Section.resizeToWidth, if_neg hw]
     unfold Section.refreshHeight
     dsimp only
     split <;> rfl)

theorem resizeToWidth_items_audio (st : Style) (s : Section) (w : Int)
    (hty : s.type = MediaType.VoiceFile ∨ s.type = MediaType.MusicFile)
    (hw : ¬ w < st.infoMediaMinGridSize + st.infoMediaSkip * 2) :
    (s.resizeToWidth st w).items
      = (columnLayoutPass
          (s.items.map fun item =>
            { item with height := item.measureHeight w })
          (s.headerHeight st)).1 := by
  rcases s with ⟨ty, hd, items, il, itop, iwd, irow, rc, tp, hh⟩
  rcases hty with h | h <;>
    (cases h
     simp only [Section.resizeToWidth, Section.resizeOneColumn, if_neg hw]
     unfold Section.refreshHeight
     dsimp only
     simp only [Section.headerHeight])

theorem resizeToWidth_items_fileLink (st : Style) (s : Section) (w : Int)
    (hty : s.type = MediaType.File ∨ s.type = MediaType.Link)
    (hw : ¬ w < st.infoMediaMinGridSize + st.infoMediaSkip * 2) :
    (s.resizeToWidth st w).items
      = (columnLayoutPass
          (s.items.map fun item =>
            { item with height := item.measureHeight (
                w - 2 * st.infoMediaHeaderPositionX) })
          (s.headerHeight st)).1 := by
  rcases s with ⟨ty, hd, items, il, itop, iwd, irow, rc, tp, hh⟩
  rcases hty with h | h <;>
    (cases h
     simp only [Section.resizeToWidth, Section.resizeOneColumn, if_neg hw]
     unfold Section.refreshHeight
     dsimp only
     simp only [Section.headerHeight])

theorem resizeToWidth_ids (st : Style) (s : Section) (w : Int) :
    (s.resizeToWidth st w).items.map (·.universalId)
      = s.items.map (·.universalId) := by
  by_cases hw : w < st.infoMediaMinGridSize + st.infoMediaSkip * 2
  · rw [resizeToWidth_below_min st s w hw]
  · rcases hgrid : s.type with _ | _ | _ | _ | _ | _ | _
    · rw [resizeToWidth_items_grid st s w (Or.inl hgrid) hw,
        gridLayoutPass_ids, map_measure_ids]
    · rw [resizeToWidth_items_grid st s w (Or.inr (Or.inl hgrid)) hw,
        gridLayoutPass_ids, map_measure_ids]
    · rw [resizeToWidth_items_grid st s w (Or.inr (Or.inr hgrid)) hw,
        gridLayoutPass_ids, map_measure_ids]
    · rw [resizeToWidth_items_fileLink st s w (Or.inl hgrid) hw,
        columnLayoutPass_ids, map_measure_ids]
    · rw [resizeToWidth_items_fileLink st s w (Or.inr hgrid) hw,
        columnLayoutPass_ids, map_measure_ids]
    · rw [resizeToWidth_items_audio st s w (Or.inl hgrid) hw,
        columnLayoutPass_ids, map_measure_ids]
    · rw [resizeToWidth_items_audio st s w (Or.inr hgrid) hw,
        columnLayoutPass_ids, map_measure_ids]

/-- `findItemByPoint` never fails: it returns a member of the (nonempty)
section, and its `exact` flag reports precisely whether the point lies inside
the returned geometry. -/
theorem findItemByPoint_total (st : Style) (s : Section) (p : QPoint)
    (hne : s.items ≠ []) :
    (s.findItemByPoint st p).layout ∈ s.items
    ∧ (s.findItemByPoint st p).exact
        = ((s.findItemByPoint st p).geometry).containsPoint p := by
  have hlen : 0 < s.items.length := List.length_pos.mpr hne
  have hfi := firstIdxFrom_le (fun item =>
    decide (p.y < item.position.tdiv s.itemsInRow + item.height)) s.items
  unfold Section.findItemByPoint
  dsimp only
  rcases Nat.lt_or_ge (s.findItemAfterTopIdx p.y) s.items.length with hlt | hge
  · have hneq : ¬ (s.findItemAfterTopIdx p.y = s.items.length) := by omega
    rw [if_neg hneq]
    split
    · refine ⟨getD_mem _ ?_, rfl⟩
      exact lt_of_le_of_lt (Nat.min_le_right _ _) (by omega)
    · exact ⟨getD_mem _ hlt, rfl⟩
  · have heq : s.findItemAfterTopIdx p.y = s.items.length := by
      unfold Section.findItemAfterTopIdx at hge ⊢
      omega
    rw [if_pos heq]
    split
    · refine ⟨getD_mem _ ?_, rfl⟩
      exact lt_of_le_of_lt (Nat.min_le_right _ _) (by omega)
    · exact ⟨getD_mem _ (by omega), rfl⟩

/-- Claim C7 (amended). On any nonempty section in its flat_map order
(strictly descending ids): `findItemNearId` returns the item carrying the
requested id with `exact = true` when the id is present; otherwise it returns
`exact = false` together with the lower-bound-nearest item — the item with the
largest id below the requested one when such an item exists, else the
smallest-id item. `findItemByPoint` always returns some item of the section,
with `exact` reporting precisely whether the point lies inside the returned
geometry; and on grid-kind sections (Photo/Video/RoundFile) as laid out by
`resizeToWidth`, with a uniform measured tile height no larger than the row
stride, a point inside an item's cell rectangle yields exactly that item with
`exact = true`. (The inside-cell part of the original claim fails over
File/Link sections — see the counterexample: the left margin exceeds the gap,
so a right-edge band of each cell resolves to the following item with
`exact = false`.) -/
theorem findItem_lookup_spec (st : Style) (s : Section) (w h : Int)
    (hskip : 0 ≤ st.infoMediaSkip)
    (hgrid : 0 < st.infoMediaMinGridSize)
    (hhh : 0 ≤ st.infoMediaHeaderHeight)
    (hnempty : s.items ≠ [])
    (hsorted : List.Pairwise
      (fun a b : BaseLayout => b.universalId < a.universalId) s.items) :
    (∀ q, (∃ it ∈ s.items, it.universalId = q) →
        (s.findItemNearId st q).layout.universalId = q
          ∧ (s.findItemNearId st q).exact = true)
    ∧ (∀ q, (∀ it ∈ s.items, it.universalId ≠ q) →
        (s.findItemNearId st q).layout ∈ s.items
          ∧ (s.findItemNearId st q).exact = false
          ∧ ((∃ it ∈ s.items, it.universalId < q) →
              (s.findItemNearId st q).layout.universalId < q
                ∧ ∀ it ∈ s.items, it.universalId < q →
                    it.universalId
                      ≤ (s.findItemNearId st q).layout.universalId)
          ∧ ((∀ it ∈ s.items, q < it.universalId) →
              ∀ it ∈ s.items,
                (s.findItemNearId st q).layout.universalId
                  ≤ it.universalId))
    ∧ (∀ p : QPoint,
        (s.findItemByPoint st p).layout ∈ s.items
          ∧ (s.findItemByPoint st p).exact
            = ((s.findItemByPoint st p).geometry).containsPoint p)
    ∧ ((s.type = MediaType.Photo ∨ s.type = MediaType.Video
          ∨ s.type = MediaType.RoundFile) →
        ¬ w < st.infoMediaMinGridSize + st.infoMediaSkip * 2 →
        (∀ it ∈ s.items,
          it.measureHeight ((s.resizeToWidth st w).itemWidth) = h) →
        h ≤ (s.resizeToWidth st w).itemWidth + st.infoMediaSkip →
        ∀ (p : QPoint) (k : Nat), k < (s.resizeToWidth st w).items.length →
          ((s.resizeToWidth st w).findItemRect st
              ((s.resizeToWidth st w).items.getD k default)).containsPoint p
            = true →
          (s.resizeToWidth st w).findItemByPoint st p
            = ⟨(s.resizeToWidth st w).items.getD k default,
                (s.resizeToWidth st w).findItemRect st
                  ((s.resizeToWidth st w).items.getD k default), true⟩) := by
  refine ⟨?_, ?_, ?_, ?_⟩
  · intro q hq
    unfold Section.findItemNearId
    dsimp only
    have hid := lowerBoundOrLast_exact _ hsorted hq
    exact ⟨hid, by simp [hid]⟩
  · intro q hq
    unfold Section.findItemNearId
    dsimp only
    have hmem := lowerBoundOrLast_mem
      (fun it => decide (it.universalId ≤ q)) _ hnempty
    refine ⟨hmem, by simp [hq _ hmem], ?_, ?_⟩
    · intro hex
      have hex' : ∃ it ∈ s.items, it.universalId ≤ q := by
        obtain ⟨x, hx, hxq⟩ := hex
        exact ⟨x, hx, le_of_lt hxq⟩
      obtain ⟨h1, h2⟩ := lowerBoundOrLast_found s.items hsorted hex'
      refine ⟨lt_of_le_of_ne h1 (hq _ hmem), ?_⟩
      intro it hit hitq
      exact h2 it hit (le_of_lt hitq)
    · intro hallgt
      exact lowerBoundOrLast_min s.items hsorted hallgt
  · intro p
    exact findItemByPoint_total st s p hnempty
  · intro hty hw huniform hhle
    have hb : (0 : Int) < st.infoMediaMinGridSize + st.infoMediaSkip := by
      omega
    have ha : (0 : Int) ≤ w - st.infoMediaSkip := by omega
    have hab : st.infoMediaMinGridSize + st.infoMediaSkip
        ≤ w - st.infoMediaSkip := by omega
    have hn1 : 1 ≤ (w - st.infoMediaSkip).tdiv
        (st.infoMediaMinGridSize + st.infoMediaSkip) := by
      rw [Int.tdiv_eq_ediv ha hb.le]
      rw [Int.le_ediv_iff_mul_le hb]
      omega
    have hRow : (s.resizeToWidth st w).itemsInRow
        = (w - st.infoMediaSkip).tdiv
            (st.infoMediaMinGridSize + st.infoMediaSkip) := by
      rw [resizeToWidth_grid_eq st s w hty hw, refreshHeight_itemsInRow]
    have hLeft : (s.resizeToWidth st w).itemsLeft = st.infoMediaSkip := by
      rw [resizeToWidth_grid_eq st s w hty hw, refreshHeight_itemsLeft]
    have hWid : (s.resizeToWidth st w).itemWidth
        = (w - st.infoMediaSkip).tdiv
            ((w - st.infoMediaSkip).tdiv
              (st.infoMediaMinGridSize + st.infoMediaSkip))
          - st.infoMediaSkip := by
      rw [resizeToWidth_grid_eq st s w hty hw, refreshHeight_itemWidth]
    have hWid0 : 0 ≤ (s.resizeToWidth st w).itemWidth := by
      rw [hWid]
      have h1 : st.infoMediaMinGridSize + st.infoMediaSkip
          ≤ (w - st.infoMediaSkip).tdiv
              ((w - st.infoMediaSkip).tdiv
                (st.infoMediaMinGridSize + st.infoMediaSkip)) := by
        rw [Int.tdiv_eq_ediv ha (by omega)]
        rw [Int.le_ediv_iff_mul_le (by omega)]
        calc (st.infoMediaMinGridSize + st.infoMediaSkip)
              * ((w - st.infoMediaSkip).tdiv
                  (st.infoMediaMinGridSize + st.infoMediaSkip))
            = ((w - st.infoMediaSkip).tdiv
                  (st.infoMediaMinGridSize + st.infoMediaSkip))
                * (st.infoMediaMinGridSize + st.infoMediaSkip) := by ring
          _ ≤ w - st.infoMediaSkip := by
              rw [Int.tdiv_eq_ediv ha hb.le]
              exact Int.ediv_mul_le _ (ne_of_gt hb)
      omega
    have hlen : (s.resizeToWidth st w).items.length = s.items.length := by
      have h1 := congrArg List.length (resizeToWidth_ids st s w)
      simpa using h1
    intro p k hk hcont
    have hr0 : 0 ≤ s.headerHeight st + st.infoMediaSkip := by
      unfold Section.headerHeight
      split <;> omega
    have hN : 0 < ((w - st.infoMediaSkip).tdiv
        (st.infoMediaMinGridSize + st.infoMediaSkip)).toNat := by omega
    have hNcast : (((((w - st.infoMediaSkip).tdiv
            (st.infoMediaMinGridSize + st.infoMediaSkip))).toNat : Nat) : Int)
        = (w - st.infoMediaSkip).tdiv
            (st.infoMediaMinGridSize + st.infoMediaSkip) :=
      Int.toNat_of_nonneg (by omega)
    apply findItemByPoint_grid_exact st _ h (s.headerHeight st + st.infoMediaSkip)
      (((w - st.infoMediaSkip).tdiv
        (st.infoMediaMinGridSize + st.infoMediaSkip))).toNat
      hskip hN (by rw [hRow, hNcast]) hLeft hWid0 hr0 hhle ?_ p k hk hcont
    intro m hm
    have hmS : m < s.items.length := by omega
    have hmM : m < (s.items.map fun item =>
        { item with height := item.measureHeight (
            (w - st.infoMediaSkip).tdiv
                ((w - st.infoMediaSkip).tdiv
                  (st.infoMediaMinGridSize + st.infoMediaSkip))
              - st.infoMediaSkip) }).length := by
      simpa using hmS
    constructor
    · rw [resizeToWidth_items_grid st s w hty hw]
      rw [gridLayoutPass_getD _ _ (by omega) _ _ 0 le_rfl (by omega) m default hmM]
      rw [hRow, hNcast, hWid]
      dsimp only
      rw [zero_add]
    · rw [resizeToWidth_items_grid st s w hty hw]
      rw [gridLayoutPass_getD _ _ (by omega) _ _ 0 le_rfl (by omega) m default hmM]
      dsimp only
      have hgd := (map_measure_getD ((w - st.infoMediaSkip).tdiv
          ((w - st.infoMediaSkip).tdiv
            (st.infoMediaMinGridSize + st.infoMediaSkip))
        - st.infoMediaSkip) s.items m default hmS).1
      rw [hgd]
      have hmem : s.items.getD m default ∈ s.items := getD_mem default hmS
      have := huniform _ hmem
      rw [hWid] at this
      exact this

/-- A two-item File section (ids 10 and 9, one day) laid out at width 400
under the modelled style metrics (left margin 14, gap 5). -/
def demoFileSection : Section :=
  (Section.runAddItems MediaType.File
    [{ universalId := 9, date := ⟨2017, 5, 3⟩, measureHeight := fun _ => 100 },
     { universalId := 10, date := ⟨2017, 5, 3⟩,
       measureHeight := fun _ => 100 }]).resizeToWidth demoStyle 400

/-- Counterexample to C7 as stated over every Section: in a File section the
single-column left margin (14) exceeds the gap (5), so the point (380, 30)
lies inside the first item's cell rectangle (x ∈ [14, 385], y ∈ [28, 127])
yet `findItemByPoint` — which divides the raw `point.x()` by
`itemWidth + gap` without subtracting the margin — steps to the second item
and reports `exact = false`. -/
theorem findItemByPoint_inside_not_exact :
    ((demoFileSection.findItemRect demoStyle
        (demoFileSection.items.getD 0 default)).containsPoint ⟨380, 30⟩ = true)
    ∧ (demoFileSection.items.getD 0 default).universalId = 10
    ∧ ((demoFileSection.findItemByPoint demoStyle ⟨380, 30⟩).exact = false)
    ∧ ((demoFileSection.findItemByPoint demoStyle ⟨380, 30⟩).layout.universalId
        = 9) := by
  refine ⟨by decide, by decide, by decide, by decide⟩

/-- Witness for the amended C7, at the spec's scenario: in a three-item photo
section (ids 103..105), `findItemNearId 104` reports an exact hit. -/
theorem findItem_lookup_spec_spot :
    ((Section.runAddItems MediaType.Photo
        [demoLayout 103, demoLayout 104, demoLayout 105]).findItemNearId
          demoStyle 104).exact = true :=
  ((findItem_lookup_spec demoStyle
      (Section.runAddItems MediaType.Photo
        [demoLayout 103, demoLayout 104, demoLayout 105]) 400 93
      (by decide) (by decide) (by decide)
      (by
        have hlen3 : (Section.runAddItems MediaType.Photo
            [demoLayout 103, demoLayout 104, demoLayout 105]).items.length
              = 3 := by
          decide
        intro hcon
        rw [hcon] at hlen3
        simp at hlen3)
      (by decide)).1 104 (by decide)).2

/-! ## Drag selection -/

/-- `QSize` as captured in `CursorState`. -/
structure QSize where
  width : Int
  height : Int
deriving DecidableEq, Repr

/-- `ListWidget::CursorState`: item id, item geometry size, cursor position
within the item, inside-flag. -/
structure CursorState where
  itemId : Int := 0
  size : QSize := ⟨0, 0⟩
  cursor : QPoint := ⟨0, 0⟩
  inside : Bool := false
deriving DecidableEq, Repr

/-- `ListWidget::IsAfter`: order two cursor states by item id (smaller id =
visually later), tie-broken by the sum of the in-item cursor coordinates. -/
def IsAfter (a b : CursorState) : Bool :=
  if a.itemId ≠ b.itemId then
    decide (a.itemId < b.itemId)
  else
    let xAfter := a.cursor.x - b.cursor.x
    let yAfter := a.cursor.y - b.cursor.y
    decide (xAfter + yAfter ≥ 0)

/-- `ListWidget::SkipSelectFromItem`: exclude the boundary item when the
cursor is past its bottom or right edge. -/
def SkipSelectFromItem (state : CursorState) : Bool :=
  decide (state.cursor.y ≥ state.size.height)
    || decide (state.cursor.x ≥ state.size.width)

/-- `ListWidget::SkipSelectTillItem`: exclude the boundary item when the
cursor is before its top-left corner. -/
def SkipSelectTillItem (state : CursorState) : Bool :=
  decide (state.cursor.x < 0) || decide (state.cursor.y < 0)

inductive DragSelectAction
  | none
  | selecting
  | deselecting
deriving DecidableEq, Repr

/-- `ListWidget::isSelectedItem` applied to a `find` result: the entry exists
and stores `FullSelection`. -/
def isSelectedEntry : Option SelectionData → Bool
  | some d => d.text == FullSelection
  | Option.none => false

/-- `ListWidget::updateDragSelection`: normalize the (press, over) pair via
`IsAfter`, clear when either end has no item, apply the edge-inclusion rules
(`SkipSelectFromItem`/`SkipSelectTillItem`), prune and extend `_dragSelected`
to exactly the cached layouts with ids in `(tillId, fromId]`, and pick
Selecting/Deselecting by probing whether the first-touched item of the drag —
`front()` or `back()` of the overlay depending on the swap — is
committed-selected. -/
def updateDragSelection (resolve : Resolver) (layouts : List Int)
    (selected : SelectedMap) (pressState overState : CursorState)
    (dragSelected : SelectedMap) : SelectedMap × DragSelectAction :=
  let swapStates := IsAfter pressState overState
  let fromState := cond swapStates overState pressState
  let tillState := cond swapStates pressState overState
  if fromState.itemId = 0 ∨ tillState.itemId = 0 then
    ([], DragSelectAction.none)
  else
    let fromId := if SkipSelectFromItem fromState then fromState.itemId - 1
      else fromState.itemId
    let tillId := if SkipSelectTillItem tillState then tillState.itemId
      else tillState.itemId - 1
    let pruned := dragSelected.filter fun e =>
      !(decide (e.1 > fromId) || decide (e.1 ≤ tillId))
    let updated := layouts.foldl (fun m uid =>
      if uid ≤ fromId ∧ tillId < uid then
        (changeItemSelection resolve m uid FullSelection).1
      else m) pruned
    let action :=
      if updated.isEmpty then DragSelectAction.none
      else
        let firstId := cond swapStates
          (updated.headD (0, { text := FullSelection })).1
          (updated.getLastD (0, { text := FullSelection })).1
        if isSelectedEntry (selected.find firstId) then
          DragSelectAction.deselecting
        else DragSelectAction.selecting
    (updated, action)

/-- `ListWidget::applyDragSelection(applyTo)`: merge the drag overlay into
the committed map — Selecting adds full selections, Deselecting removes. -/
def applyDragSelection (resolve : Resolver) (applyTo : SelectedMap)
    (dragSelected : SelectedMap) : DragSelectAction → SelectedMap
  | DragSelectAction.selecting =>
    dragSelected.foldl (fun m e =>
      (changeItemSelection resolve m e.1 FullSelection).1) applyTo
  | DragSelectAction.deselecting =>
    dragSelected.foldl (fun m e => m.remove e.1) applyTo
  | DragSelectAction.none => applyTo

/-- One full range drag gesture: `updateDragSelection` from a clean overlay,
then the release path (`mouseActionFinish` → `applyDragSelection` into
`_selected`, clearing the overlay). -/
def dragSelectionCommit (resolve : Resolver) (layouts : List Int)
    (selected : SelectedMap) (press over : CursorState) : SelectedMap :=
  let upd := updateDragSelection resolve layouts selected press over []
  applyDragSelection resolve selected upd.1 upd.2

/-- An all-resolving message lookup for the drag scenarios. -/
def dragResolver : Resolver := fun _ => some (true, true)

/-- A press/over state centered at the top-left of a 100×100 item. -/
def stateOn (id : Int) : CursorState :=
  { itemId := id, size := ⟨100, 100⟩, cursor := ⟨0, 0⟩, inside := true }

/-- Counterexample to C4 as stated, in both regimes. Cross-item: with items 5
and 10 cached and item 10 already committed-selected, dragging from item 5 to
item 10 commits a selection holding both ids (the first-touched item 5 is
unselected, so the drag selects), while dragging from item 10 to item 5
commits the empty set (the first-touched item 10 is selected, so the drag
deselects). Same-item: with press and over both on item 7 at cursor offsets
(0, 0) and (10, −10), both orientations of `IsAfter` report `true` (the
coordinate sums tie), so both directions swap; the (10, −10) end then
triggers `SkipSelectTillItem` only when it is the till state, giving the
drag-selected interval {7} in one direction and ∅ in the other — even the
transient overlay, and with it the committed result, is direction-dependent
for same-item drags. -/
theorem dragSelection_not_symmetric :
    (dragSelectionCommit dragResolver [5, 10]
        [(10, { text := FullSelection, canDelete := true, canForward := true })]
        (stateOn 5) (stateOn 10)
      ≠ dragSelectionCommit dragResolver [5, 10]
        [(10, { text := FullSelection, canDelete := true, canForward := true })]
        (stateOn 10) (stateOn 5))
    ∧ ((updateDragSelection dragResolver [7] []
          { itemId := 7, size := ⟨100, 100⟩, cursor := ⟨0, 0⟩, inside := true }
          { itemId := 7, size := ⟨100, 100⟩, cursor := ⟨10, -10⟩,
            inside := true } []).1
      ≠ (updateDragSelection dragResolver [7] []
          { itemId := 7, size := ⟨100, 100⟩, cursor := ⟨10, -10⟩,
            inside := true }
          { itemId := 7, size := ⟨100, 100⟩, cursor := ⟨0, 0⟩, inside := true }
          []).1)
    ∧ (dragSelectionCommit dragResolver [7] []
          { itemId := 7, size := ⟨100, 100⟩, cursor := ⟨0, 0⟩, inside := true }
          { itemId := 7, size := ⟨100, 100⟩, cursor := ⟨10, -10⟩,
            inside := true }
      ≠ dragSelectionCommit dragResolver [7] []
          { itemId := 7, size := ⟨100, 100⟩, cursor := ⟨10, -10⟩,
            inside := true }
          { itemId := 7, size := ⟨100, 100⟩, cursor := ⟨0, 0⟩,
            inside := true }) := by
  refine ⟨by decide, by decide, by decide⟩

theorem isAfter_antisymm (A B : CursorState) (h : A.itemId ≠ B.itemId) :
    IsAfter B A = !(IsAfter A B) := by
  unfold IsAfter
  rw [if_pos (Ne.symm h), if_pos h]
  by_cases hlt : A.itemId < B.itemId
  · rw [decide_eq_true hlt]
    simp only [Bool.not_true, decide_eq_false_iff_not]
    omega
  · rw [decide_eq_false hlt]
    simp only [Bool.not_false, decide_eq_true_eq]
    omega

/-- Claim C4 (amended). For a cross-item drag (press and over on different
items) with coinciding committed-selected status of the overlay's two
extreme entries (front and back) — in particular whenever the prior
committed selection is empty — both the drag-selected overlay and the
selection committed on release are direction-independent. The restriction
to cross-item drags is forced by the same-item half of the counterexample
(tying cursor offsets make both orientations swap, flipping
`SkipSelectTillItem`); the status hypothesis is forced by its cross-item
half (the Selecting/Deselecting probe targets the press-end item). -/
theorem dragSelection_symmetric (resolve : Resolver) (layouts : List Int)
    (selected : SelectedMap) (A B : CursorState)
    (hids : A.itemId ≠ B.itemId)
    (hstatus :
      isSelectedEntry (selected.find
        (((updateDragSelection resolve layouts selected A B []).1).headD
          (0, { text := FullSelection })).1)
      = isSelectedEntry (selected.find
        (((updateDragSelection resolve layouts selected A B []).1).getLastD
          (0, { text := FullSelection })).1)) :
    (updateDragSelection resolve layouts selected B A []).1
      = (updateDragSelection resolve layouts selected A B []).1
    ∧ dragSelectionCommit resolve layouts selected B A
      = dragSelectionCommit resolve layouts selected A B := by
  have hfull : updateDragSelection resolve layouts selected B A []
      = updateDragSelection resolve layouts selected A B [] := by
    unfold updateDragSelection at hstatus ⊢
    rw [isAfter_antisymm A B hids]
    cases hsw : IsAfter A B
    · rw [hsw] at hstatus
      simp only [Bool.not_false, Bool.cond_true, Bool.cond_false] at hstatus ⊢
      by_cases hz : A.itemId = 0 ∨ B.itemId = 0
      · rw [if_pos hz, if_pos hz]
      · rw [if_neg hz, if_neg hz]
        rw [if_neg hz] at hstatus
        dsimp only at hstatus
        rw [hstatus]
    · rw [hsw] at hstatus
      simp only [Bool.not_true, Bool.cond_true, Bool.cond_false] at hstatus ⊢
      by_cases hz : B.itemId = 0 ∨ A.itemId = 0
      · rw [if_pos hz, if_pos hz]
      · rw [if_neg hz, if_neg hz]
        rw [if_neg hz] at hstatus
        dsimp only at hstatus
        rw [← hstatus]
  refine ⟨congrArg Prod.fst hfull, ?_⟩
  unfold dragSelectionCommit
  rw [hfull]

/-- Witness for the amended C4: from an empty committed selection, dragging
between items 5 and 10 commits the same selection in either direction. -/
theorem dragSelection_symmetric_spot :
    dragSelectionCommit dragResolver [5, 10] [] (stateOn 10) (stateOn 5)
      = dragSelectionCommit dragResolver [5, 10] [] (stateOn 5) (stateOn 10) :=
  (dragSelection_symmetric dragResolver [5, 10] [] (stateOn 5) (stateOn 10)
    (by decide) (by decide)).2

/-! ## Slice viewer (C5) -/

/-- The interface of `SparseIdsMergedSlice` that the widget consumes: the
ordered message ids, the possibly-unknown `fullCount()`, and the `nearest`
query. The slice type itself lives outside this file, so only its interface
is modelled. -/
structure SparseIdsMergedSlice where
  ids : List FullMsgId
  fullCount : Option Nat
  nearestTo : Int → Option FullMsgId

/-- `ListWidget::sliceKey(universalId).universalId`: with a migrated history
the universal id is passed through; otherwise a negative universal id is
converted back to a plain id by adding `ServerMaxMsgId`. -/
def sliceKeyUniversalId (hasMigrated : Bool) (universalId : Int) : Int :=
  if hasMigrated then universalId
  else if universalId < 0 then universalId + ServerMaxMsgId
  else universalId

/-- The widget state written by the viewer callback of
`ListWidget::refreshViewer`: `_slice`, `_universalAroundId` and `_sections`. -/
structure ViewerState where
  slice : SparseIdsMergedSlice
  universalAroundId : Int
  sections : List Section

/-- The section-building loop of `ListWidget::refreshRows`: walk the slice
from its last entry to its first, skip ids whose layout cannot be created,
and start a fresh `Section(_type)` whenever `addItem` rejects the item; a
trailing non-empty section is flushed at the end. -/
def buildSections (ty : MediaType) (getLayout : Int → Option BaseLayout)
    (ids : List FullMsgId) : List Section :=
  let step := fun (p : List Section × Section) (fullId : FullMsgId) =>
    match getLayout (GetUniversalId fullId) with
    | Option.none => p
    | some layout =>
      let r := p.2.addItem layout
      if r.2 then (p.1, r.1)
      else (p.1 ++ [p.2], (Section.addItem { type := ty } layout).1)
  let r := ids.reverse.foldl step ([], { type := ty })
  if r.2.items.isEmpty then r.1 else r.1 ++ [r.2]

/-- `ListWidget::recountHeight`'s walk over `_sections` (as run by
`refreshHeight`/`resizeGetHeight`): give each section its cumulative top,
starting below the top padding, and return the running offset. -/
def assignTops : List Section → Int → List Section × Int
  | [], result => ([], result)
  | s :: rest, result =>
    let tail := assignTops rest (result + s.height)
    ({ s with top := result } :: tail.1, tail.2)

/-- The section state after `ListWidget::resizeGetHeight`: resize every
section when the width is positive, then assign the cumulative tops of
`recountHeight` (the returned total height is dropped here; its zero-count
shortcut only affects that height). -/
def resizeSections (st : Style) (sections : List Section) (newWidth : Int) :
    List Section :=
  let resized :=
    if newWidth > 0 then sections.map fun s => s.resizeToWidth st newWidth
    else sections
  (assignTops resized st.infoMediaMarginTop).1

/-- `ListWidget::refreshRows`, restricted to the section state: rebuild
`_sections` from the slice and run `resizeToWidth(width())`. Scroll-state
preservation, stale-layout collection and the search toggle touch no state
tracked here. -/
def refreshRowsModel (ty : MediaType) (st : Style) (w : Int)
    (getLayout : Int → Option BaseLayout) (slice : SparseIdsMergedSlice) :
    List Section :=
  resizeSections st (buildSections ty getLayout slice.ids) w

/-- The viewer callback installed by `ListWidget::refreshViewer`: a slice
whose `fullCount()` is unknown is dropped before any state is touched;
otherwise the slice is stored, `_universalAroundId` is refreshed from
`nearest(idForViewer)` when that lookup succeeds, and the rows are
rebuilt. -/
def viewerDeliver (ty : MediaType) (st : Style) (w : Int)
    (getLayout : Int → Option BaseLayout) (state : ViewerState)
    (idForViewer : Int) (slice : SparseIdsMergedSlice) : ViewerState :=
  match slice.fullCount with
  | Option.none => state
  | some _ =>
    let aroundId :=
      match slice.nearestTo idForViewer with
      | some nearest => GetUniversalId nearest
      | Option.none => state.universalAroundId
    { slice := slice, universalAroundId := aroundId,
      sections := refreshRowsModel ty st w getLayout slice }

/-- Claim C5. A slice delivered with unknown `fullCount()` leaves the stored
slice, the around-id and the sections completely untouched — nothing is
displayed until the total count is known — while a slice with a known count
is stored and the sections are rebuilt from exactly that slice. -/
theorem viewer_unknown_count_spec (ty : MediaType) (st : Style) (w : Int)
    (getLayout : Int → Option BaseLayout) (state : ViewerState)
    (hasMigrated : Bool) (slice : SparseIdsMergedSlice) :
    (slice.fullCount = Option.none →
      viewerDeliver ty st w getLayout state
        (sliceKeyUniversalId hasMigrated state.universalAroundId) slice
        = state)
    ∧ (∀ c, slice.fullCount = some c →
      (viewerDeliver ty st w getLayout state
        (sliceKeyUniversalId hasMigrated state.universalAroundId) slice).slice
        = slice
      ∧ (viewerDeliver ty st w getLayout state
          (sliceKeyUniversalId hasMigrated state.universalAroundId)
          slice).sections
        = refreshRowsModel ty st w getLayout slice) := by
  constructor
  · intro h
    unfold viewerDeliver
    rw [h]
  · intro c h
    unfold viewerDeliver
    rw [h]
    exact ⟨rfl, rfl⟩

/-- A slice whose total count is still unknown. -/
def demoSliceUnknown : SparseIdsMergedSlice :=
  { ids := [⟨7, 11⟩], fullCount := Option.none,
    nearestTo := fun _ => Option.none }

/-- A viewer state with an already-resolved empty slice. -/
def demoViewerState : ViewerState :=
  { slice :=
      { ids := [], fullCount := some 0, nearestTo := fun _ => Option.none },
    universalAroundId := 0, sections := [] }

/-- Witness for C5: delivering an unknown-count slice leaves the state
untouched. -/
theorem viewer_unknown_count_spec_spot :
    viewerDeliver MediaType.Photo demoStyle 400 (fun _ => Option.none)
        demoViewerState
        (sliceKeyUniversalId false demoViewerState.universalAroundId)
        demoSliceUnknown
      = demoViewerState :=
  (viewer_unknown_count_spec MediaType.Photo demoStyle 400
      (fun _ => Option.none) demoViewerState false demoSliceUnknown).1 rfl

/-! ## Item removal (C6) -/

/-- `Section::minId`: the key of `_items.back()`, i.e. the smallest id of the
descending map (`0` when empty; the source `Expects(!empty())`). -/
def Section.minId (s : Section) : Int :=
  match s.items.getLast? with
  | some item => item.universalId
  | Option.none => 0

/-- `ListWidget::findSectionByItem`: `ranges::lower_bound` with
`std::greater` over `Section::minId`, i.e. the index of the first section
whose `minId` is at most the id (the sections are kept in descending id
order); the list length plays the role of `end()`. -/
def findSectionIdx (universalId : Int) : List Section → Nat
  | [] => 0
  | s :: rest =>
    if s.minId ≤ universalId then 0 else findSectionIdx universalId rest + 1

/-- `Section::removeItem`: erase the keyed entry when present and refresh the
section's geometry; reports whether anything was erased. -/
def Section.removeItem (st : Style) (s : Section) (universalId : Int) :
    Section × Bool :=
  if s.items.any (fun item => item.universalId == universalId) then
    (Section.refreshHeight st
      { s with
          items := s.items.filter fun item => !(item.universalId == universalId) },
     true)
  else (s, false)

/-- The section-list part of `ListWidget::itemRemoved`: find the candidate
section via `findSectionByItem`; when it erases the id, replace it (or drop
it entirely when it became empty) and re-assign the section tops as the
widget's `refreshHeight` does. -/
def removeFromSections (st : Style) (secs : List Section) (uid : Int) :
    List Section :=
  match secs[findSectionIdx uid secs]? with
  | Option.none => secs
  | some sec =>
    let r := Section.removeItem st sec uid
    if r.2 then
      (assignTops
        (if r.1.items.isEmpty then secs.eraseIdx (findSectionIdx uid secs)
         else secs.set (findSectionIdx uid secs) r.1)
        st.infoMediaMarginTop).1
    else secs

/-- The state containers `ListWidget::itemRemoved` scrubs: `_sections`, the
keys of the `_layouts` cache, `_selected`, `_dragSelected` and the id under
`_overLayout`; `emitted` records that `pushSelectedItems` fired a fresh
selection snapshot. -/
structure ListWidgetState where
  sections : List Section
  layouts : List Int
  selected : SelectedMap
  dragSelected : SelectedMap
  overLayoutId : Option Int
  emitted : Bool := false

/-- `ListWidget::itemRemoved` on the `isMyItem` path: remove the id from the
section found by `findSectionByItem` (erasing the section when it became
empty and re-assigning section tops), clear a matching `_overLayout`, erase
the layout-cache entry, remove the id from the drag overlay, and — when the
id was in the committed selection — erase it there and push a fresh
selection snapshot. The trailing `mouseActionUpdate` only refreshes hover
state and touches none of the tracked containers. -/
def itemRemoved (st : Style) (state : ListWidgetState) (universalId : Int) :
    ListWidgetState :=
  { sections := removeFromSections st state.sections universalId,
    layouts := state.layouts.filter fun uid => !(uid == universalId),
    selected :=
      if (SelectedMap.find state.selected universalId).isSome then
        state.selected.remove universalId
      else state.selected,
    dragSelected := state.dragSelected.remove universalId,
    overLayoutId :=
      if state.overLayoutId = some universalId then Option.none
      else state.overLayoutId,
    emitted :=
      if (SelectedMap.find state.selected universalId).isSome then true
      else state.emitted }

/-- The well-formedness the widget maintains for `_sections`: every section
is non-empty and internally sorted strictly descending, and all ids of a
later section lie strictly below the `minId` of any earlier one. -/
def SectionsWF (sections : List Section) : Prop :=
  (∀ s ∈ sections,
      s.items ≠ [] ∧
        s.items.Pairwise fun a b => b.universalId < a.universalId)
  ∧ sections.Pairwise fun a b => ∀ x ∈ b.items, x.universalId < a.minId

theorem mem_of_getLast?_eq {α : Type} :
    ∀ (l : List α) (a : α), l.getLast? = some a → a ∈ l := by
  intro l
  induction l with
  | nil => intro a h; cases h
  | cons x rest ih =>
    intro a h
    cases rest with
    | nil =>
      rw [List.getLast?_singleton] at h
      cases h
      exact List.mem_singleton_self x
    | cons y tl =>
      rw [List.getLast?_cons_cons] at h
      exact List.mem_cons_of_mem x (ih a h)

theorem getLast?_of_ne_nil {α : Type} :
    ∀ (l : List α), l ≠ [] → ∃ y, l.getLast? = some y := by
  intro l
  induction l with
  | nil => intro h; exact absurd rfl h
  | cons a rest ih =>
    intro _
    cases rest with
    | nil => exact ⟨a, List.getLast?_singleton a⟩
    | cons b tl =>
      rcases ih (by simp) with ⟨y, hy⟩
      exact ⟨y, by rw [List.getLast?_cons_cons]; exact hy⟩

theorem last_le_of_desc :
    ∀ (l : List BaseLayout),
      l.Pairwise (fun a b => b.universalId < a.universalId) →
      ∀ x ∈ l, ∀ y, l.getLast? = some y →
        y.universalId ≤ x.universalId := by
  intro l
  induction l with
  | nil => intro _ x hx; cases hx
  | cons a rest ih =>
    intro h x hx y hy
    rcases List.pairwise_cons.1 h with ⟨ha, hrest⟩
    cases rest with
    | nil =>
      rw [List.getLast?_singleton] at hy
      cases hy
      rcases List.mem_singleton.1 hx with rfl
      exact le_refl _
    | cons b tl =>
      rw [List.getLast?_cons_cons] at hy
      have hymem : y ∈ b :: tl := mem_of_getLast?_eq _ _ hy
      rcases List.mem_cons.1 hx with rfl | hx'
      · exact le_of_lt (ha y hymem)
      · exact ih hrest x hx' y hy

theorem minId_le_of_mem {s : Section}
    (hs : s.items.Pairwise fun a b => b.universalId < a.universalId)
    {x : BaseLayout} (hx : x ∈ s.items) : s.minId ≤ x.universalId := by
  rcases getLast?_of_ne_nil s.items (List.ne_nil_of_mem hx) with ⟨y, hy⟩
  unfold Section.minId
  rw [hy]
  exact last_le_of_desc s.items hs x hx y hy

theorem findSectionIdx_take (uid : Int) :
    ∀ (secs : List Section),
      ∀ s ∈ secs.take (findSectionIdx uid secs), uid < s.minId := by
  intro secs
  induction secs with
  | nil => intro s hs; cases hs
  | cons a rest ih =>
    intro s hs
    unfold findSectionIdx at hs
    by_cases h : a.minId ≤ uid
    · rw [if_pos h] at hs
      cases hs
    · rw [if_neg h] at hs
      rw [List.take_succ_cons] at hs
      rcases List.mem_cons.1 hs with rfl | hs'
      · omega
      · exact ih s hs'

theorem findSectionIdx_hit (uid : Int) :
    ∀ (secs : List Section) (sec : Section),
      secs[findSectionIdx uid secs]? = some sec → sec.minId ≤ uid := by
  intro secs
  induction secs with
  | nil => intro sec h; rw [List.getElem?_nil] at h; cases h
  | cons a rest ih =>
    intro sec h
    unfold findSectionIdx at h
    by_cases hc : a.minId ≤ uid
    · rw [if_pos hc, List.getElem?_cons_zero] at h
      cases h
      exact hc
    · rw [if_neg hc, List.getElem?_cons_succ] at h
      exact ih sec h

theorem getElem?_decomp {α : Type} :
    ∀ (l : List α) (i : Nat) (a : α), l[i]? = some a →
      l = l.take i ++ a :: l.drop (i + 1) := by
  intro l
  induction l with
  | nil => intro i a h; rw [List.getElem?_nil] at h; cases h
  | cons x rest ih =>
    intro i a h
    cases i with
    | zero =>
      rw [List.getElem?_cons_zero] at h
      cases h
      simp
    | succ n =>
      rw [List.getElem?_cons_succ] at h
      rw [List.take_succ_cons, List.drop_succ_cons, List.cons_append]
      exact congrArg (x :: ·) (ih n a h)

theorem set_eq_take_cons_drop {α : Type} :
    ∀ (l : List α) (i : Nat) (a b : α), l[i]? = some b →
      l.set i a = l.take i ++ a :: l.drop (i + 1) := by
  intro l
  induction l with
  | nil => intro i a b h; rw [List.getElem?_nil] at h; cases h
  | cons x rest ih =>
    intro i a b h
    cases i with
    | zero => simp
    | succ n =>
      rw [List.getElem?_cons_succ] at h
      rw [List.set_cons_succ, List.take_succ_cons, List.drop_succ_cons,
        List.cons_append]
      exact congrArg (x :: ·) (ih n a b h)

theorem assignTops_mem {s' : Section} :
    ∀ (l : List Section) (r : Int), s' ∈ (assignTops l r).1 →
      ∃ s ∈ l, s'.items = s.items := by
  intro l
  induction l with
  | nil => intro r h; cases h
  | cons a rest ih =>
    intro r h
    have h2 : s' ∈ ({ a with top := r }
        :: (assignTops rest (r + a.height)).1) := h
    rcases List.mem_cons.1 h2 with rfl | h'
    · exact ⟨a, List.mem_cons_self a rest, rfl⟩
    · rcases ih _ h' with ⟨s, hs, heq⟩
      exact ⟨s, List.mem_cons_of_mem a hs, heq⟩

theorem refreshHeight_ids (st : Style) (x : Section) :
    (x.refreshHeight st).items.map (·.universalId)
      = x.items.map (·.universalId) := by
  cases hty : x.type
  · rw [refreshHeight_items_grid st x (Or.inl hty), gridLayoutPass_ids]
  · rw [refreshHeight_items_grid st x (Or.inr (Or.inl hty)),
      gridLayoutPass_ids]
  · rw [refreshHeight_items_grid st x (Or.inr (Or.inr hty)),
      gridLayoutPass_ids]
  · rw [refreshHeight_items_column st x (Or.inr (Or.inl hty)),
      columnLayoutPass_ids]
  · rw [refreshHeight_items_column st x (Or.inr (Or.inr (Or.inr hty))),
      columnLayoutPass_ids]
  · rw [refreshHeight_items_column st x (Or.inl hty), columnLayoutPass_ids]
  · rw [refreshHeight_items_column st x (Or.inr (Or.inr (Or.inl hty))),
      columnLayoutPass_ids]

theorem removeFromSections_spec (st : Style) (secs : List Section) (uid : Int)
    (hwf : SectionsWF secs) :
    ∀ s ∈ removeFromSections st secs uid,
      s.items ≠ [] ∧ ∀ x ∈ s.items, x.universalId ≠ uid := by
  obtain ⟨hsec, hchain⟩ := hwf
  have hprefix : ∀ t ∈ secs.take (findSectionIdx uid secs),
      t.items ≠ [] ∧ ∀ x ∈ t.items, x.universalId ≠ uid := by
    intro t ht
    have htmem : t ∈ secs := List.mem_of_mem_take ht
    refine ⟨(hsec t htmem).1, ?_⟩
    intro x hx
    have h1 : uid < t.minId := findSectionIdx_take uid secs t ht
    have h2 := minId_le_of_mem (hsec t htmem).2 hx
    omega
  intro s hs
  unfold removeFromSections at hs
  cases hidx : secs[findSectionIdx uid secs]? with
  | none =>
    rw [hidx] at hs
    have hs2 : s ∈ secs := hs
    have hlen : secs.length ≤ findSectionIdx uid secs := by
      by_contra hlt
      push_neg at hlt
      rw [List.getElem?_eq_getElem hlt] at hidx
      cases hidx
    have htake : secs.take (findSectionIdx uid secs) = secs :=
      List.take_of_length_le hlen
    exact hprefix s (by rw [htake]; exact hs2)
  | some sec =>
    rw [hidx] at hs
    have hdecomp : secs = secs.take (findSectionIdx uid secs)
        ++ sec :: secs.drop (findSectionIdx uid secs + 1) :=
      getElem?_decomp secs _ sec hidx
    have hminle : sec.minId ≤ uid := findSectionIdx_hit uid secs sec hidx
    have hsuffix : ∀ t ∈ secs.drop (findSectionIdx uid secs + 1),
        t.items ≠ [] ∧ ∀ x ∈ t.items, x.universalId ≠ uid := by
      intro t ht
      have htmem : t ∈ secs := List.mem_of_mem_drop ht
      refine ⟨(hsec t htmem).1, ?_⟩
      intro x hx
      have hchain2 := hchain
      rw [hdecomp] at hchain2
      rcases List.pairwise_append.1 hchain2 with ⟨_, hc2, _⟩
      rcases List.pairwise_cons.1 hc2 with ⟨hrel, _⟩
      have := hrel t ht x hx
      omega
    have hs2 : s ∈ (if (Section.removeItem st sec uid).2 then
        (assignTops
          (if (Section.removeItem st sec uid).1.items.isEmpty then
            secs.eraseIdx (findSectionIdx uid secs)
           else secs.set (findSectionIdx uid secs)
            (Section.removeItem st sec uid).1)
          st.infoMediaMarginTop).1
      else secs) := hs
    by_cases hany :
        (sec.items.any fun item => item.universalId == uid) = true
    · rw [Section.removeItem, if_pos hany] at hs2
      generalize hnew : Section.refreshHeight st { sec with items := sec.items.filter fun item => !(item.universalId == uid) } = newSec at hs2
      have hs3 : s ∈ (assignTops
          (if newSec.items.isEmpty then
            secs.eraseIdx (findSectionIdx uid secs)
           else secs.set (findSectionIdx uid secs) newSec)
          st.infoMediaMarginTop).1 := hs2
      rcases assignTops_mem _ _ hs3 with ⟨t, htmem, hitems⟩
      by_cases hemp : newSec.items.isEmpty = true
      · rw [if_pos hemp, List.eraseIdx_eq_take_drop_succ] at htmem
        rw [hitems]
        rcases List.mem_append.1 htmem with ht | ht
        · exact hprefix t ht
        · exact hsuffix t ht
      · rw [if_neg hemp,
          set_eq_take_cons_drop secs (findSectionIdx uid secs) _ sec hidx]
            at htmem
        rcases List.mem_append.1 htmem with ht | ht
        · rw [hitems]; exact hprefix t ht
        · rcases List.mem_cons.1 ht with heq | ht'
          · constructor
            · rw [hitems, heq]
              intro hnil
              rw [List.isEmpty_iff] at hemp
              exact hemp hnil
            · intro x hx
              rw [hitems, heq] at hx
              have hxid : x.universalId ∈ newSec.items.map (·.universalId) :=
                List.mem_map_of_mem _ hx
              rw [← hnew, refreshHeight_ids] at hxid
              rcases List.mem_map.1 hxid with ⟨y, hy, hyid⟩
              have hpred := List.of_mem_filter hy
              rw [← hyid]
              simpa using hpred
          · rw [hitems]; exact hsuffix t ht'
    · rw [Section.removeItem, if_neg hany] at hs2
      have hs4 : s ∈ secs := hs2
      rw [hdecomp] at hs4
      rcases List.mem_append.1 hs4 with ht | ht
      · exact hprefix s ht
      · rcases List.mem_cons.1 ht with heq | ht'
        · have hsecmem : sec ∈ secs := List.getElem?_mem hidx
          refine ⟨?_, ?_⟩
          · rw [heq]
            exact (hsec sec hsecmem).1
          · intro x hx hxid
            rw [heq] at hx
            apply hany
            rw [List.any_eq_true]
            exact ⟨x, hx, by simp [hxid]⟩
        · exact hsuffix s ht'

/-- Claim C6. For an item of this peer whose id sits in the committed
selection, the single `itemRemoved` pass scrubs every container: no
remaining section holds the id (and no empty section survives), the layout
cache loses its entry, the committed and drag selection maps both resolve
the id to nothing, and a fresh selection snapshot was emitted. -/
theorem itemRemoved_scrubs (st : Style) (state : ListWidgetState)
    (universalId : Int)
    (hwf : SectionsWF state.sections)
    (hsel : (SelectedMap.find state.selected universalId).isSome = true) :
    (∀ s ∈ (itemRemoved st state universalId).sections,
        s.items ≠ [] ∧ ∀ x ∈ s.items, x.universalId ≠ universalId)
    ∧ universalId ∉ (itemRemoved st state universalId).layouts
    ∧ SelectedMap.find (itemRemoved st state universalId).selected
        universalId = Option.none
    ∧ SelectedMap.find (itemRemoved st state universalId).dragSelected
        universalId = Option.none
    ∧ (itemRemoved st state universalId).emitted = true := by
  refine ⟨?_, ?_, ?_, ?_, ?_⟩
  · exact removeFromSections_spec st state.sections universalId hwf
  · intro hmem
    have := List.of_mem_filter hmem
    simp at this
  · show SelectedMap.find
      (if (SelectedMap.find state.selected universalId).isSome then
        state.selected.remove universalId
       else state.selected) universalId = Option.none
    rw [if_pos hsel]
    exact find_remove_self state.selected universalId
  · exact find_remove_self state.dragSelected universalId
  · show (if (SelectedMap.find state.selected universalId).isSome then true
      else state.emitted) = true
    rw [if_pos hsel]

/-- A widget state holding one photo section with items 10 and 9, both
cached, with item 9 committed-selected. -/
def demoRemovedState : ListWidgetState :=
  { sections := [Section.runAddItems MediaType.Photo
      [demoLayout 10, demoLayout 9]],
    layouts := [9, 10],
    selected := [(9, { text := FullSelection })],
    dragSelected := [],
    overLayoutId := Option.none }

/-- Witness for C6: removing item 9 scrubs the section, the layout list and
both selection maps, and emits a snapshot. -/
theorem itemRemoved_scrubs_spot :
    (∀ s ∈ (itemRemoved demoStyle demoRemovedState 9).sections,
        s.items ≠ [] ∧ ∀ x ∈ s.items, x.universalId ≠ 9)
    ∧ (9 : Int) ∉ (itemRemoved demoStyle demoRemovedState 9).layouts
    ∧ SelectedMap.find (itemRemoved demoStyle demoRemovedState 9).selected 9
        = Option.none
    ∧ SelectedMap.find (itemRemoved demoStyle demoRemovedState 9).dragSelected
        9 = Option.none
    ∧ (itemRemoved demoStyle demoRemovedState 9).emitted = true :=
  itemRemoved_scrubs demoStyle demoRemovedState 9
    (by constructor
        · intro s hs
          rcases List.mem_singleton.1 hs with rfl
          exact ⟨List.ne_nil_of_length_pos (by decide), by decide⟩
        · exact List.pairwise_singleton _ _)
    (by decide)

end InfoMediaList
